import Mathlib

/-!
Verification of the read path of a normalized GraphQL client cache
(`apollo-cache-hermes`): JSON-like runtime values, the compiled parsed-query
tree, the generic operation walker (`walkOperation`), the completeness visitor
(`_visitSelection`), the dynamic-overlay engine
(`_walkAndOverlayDynamicValues`), the query partitioner
(`partitionQuery`/`findMissingSelectionSets`) and the read orchestrator
(`read`).

Conventions of the embedding:
* JavaScript runtime values are modelled by `JsonValue`, which includes an
  `undefined` constructor: the source's own `scalar` type is
  `undefined | null | boolean | number | string | Symbol`, and the read path
  manipulates `undefined` as a first-class value (absent properties read as
  `undefined`, and the overlay can assign `undefined` into a property).
* Mutable state (the missing-field accumulator, the entity-id set, the
  per-snapshot memoization table) is threaded explicitly.
* JavaScript reference equality on AST nodes (`fields.indexOf(selection)`)
  is modelled by structural equality; every concrete input used below has
  structurally distinct selection nodes, so the two coincide.
* The source's stack-based loops are modelled by recursive functions that
  reproduce the exact pop order of the stacks.
-/

namespace Hermes

/-- Node identities in the graph store (`NodeId` in the source). -/
abbrev NodeId := String

/-- A component of a path through objects/arrays (`PathPart` in the source:
`number | string`). -/
inductive PathPart where
  | str (s : String)
  | idx (n : Nat)
deriving DecidableEq

/- JavaScript runtime JSON-like values, as manipulated by the read path.
`undefined` models the JavaScript value `undefined`, which the source's `scalar`
type includes explicitly. -/
mutual
inductive JsonValue where
  | undefined
  | null
  | bool (b : Bool)
  | num (n : Int)
  | str (s : String)
  | arr (xs : JsonList)
  | obj (fields : JsonObject)
inductive JsonList where
  | nil
  | cons (hd : JsonValue) (tl : JsonList)
inductive JsonObject where
  | nil
  | cons (key : String) (val : JsonValue) (tl : JsonObject)
end

deriving instance DecidableEq for JsonValue, JsonList, JsonObject

/-- Property lookup on a JavaScript object: `some v` when the property is
present (possibly with value `undefined`), `none` when absent. -/
def JsonObject.lookupProp : JsonObject → String → Option JsonValue
  | .nil, _ => none
  | .cons k v tl, key => if k = key then some v else tl.lookupProp key

/-- The JavaScript `in` operator on an object: key presence, regardless of the
stored value (a property explicitly set to `undefined` still counts). -/
def JsonObject.hasProp : JsonObject → String → Bool
  | .nil, _ => false
  | .cons k _ tl, key => k = key || tl.hasProp key

/-- JavaScript property assignment `value[key] = v` on an object: overwrites
an existing binding in place, otherwise appends the new property. -/
def JsonObject.setProp : JsonObject → String → JsonValue → JsonObject
  | .nil, key, v => .cons key v .nil
  | .cons k old tl, key, v =>
    if k = key then .cons k v tl else .cons k old (tl.setProp key v)

/-- `util.isObject`: `value !== null && typeof value === 'object'`
(arrays are objects in JavaScript; `null` and `undefined` are not). -/
def isObject : JsonValue → Bool
  | .arr _ => true
  | .obj _ => true
  | _ => false

/-- `util.isNil`: `value === undefined || value === null`. -/
def isNil : JsonValue → Bool
  | .undefined => true
  | .null => true
  | _ => false

/-- JavaScript truthiness of a JSON-like value (`!value` negated). -/
def jsTruthy : JsonValue → Bool
  | .undefined => false
  | .null => false
  | .bool b => b
  | .num n => n ≠ 0
  | .str s => s ≠ ""
  | .arr _ => true
  | .obj _ => true

/-- `util.get(value, key)` from the source:
`value !== null && typeof value === 'object' ? value[key] : undefined`.
Reading a string key off an array yields `undefined`; an absent property reads
as `undefined`. -/
def utilGet (value : JsonValue) (key : String) : JsonValue :=
  match value with
  | .obj fs => (fs.lookupProp key).getD .undefined
  | _ => .undefined

/-- The JavaScript `key in value` test as used by the completeness visitor
(`field in value`); only objects carry properties here. -/
def jsHasProp (value : JsonValue) (key : String) : Bool :=
  match value with
  | .obj fs => fs.hasProp key
  | _ => false

/-- `@include`/`@skip` directive argument: a literal or a variable reference. -/
inductive BoolArg where
  | lit (b : Bool)
  | var (name : String)
deriving DecidableEq

/-- A `@skip`/`@include` directive on a selection (the only directives the
read path interprets, through `shouldInclude`). -/
structure Directive where
  isInclude : Bool
  ifArg : BoolArg
deriving DecidableEq

/- GraphQL AST selections (`SelectionNode` from the `graphql` package), with
the parts the read path looks at: the selection kind, directives and
sub-selection set. `OptSelectionSet` is the source's optional
`selectionSet`. -/
mutual
inductive SelectionNode where
  | field (name : String) (fieldAlias : Option String) (directives : List Directive)
      (selectionSet : OptSelectionSet)
  | fragmentSpread (name : String) (directives : List Directive)
  | inlineFragment (typeCondition : Option String) (directives : List Directive)
      (selectionSet : SelectionSetNode)
inductive OptSelectionSet where
  | none
  | some (s : SelectionSetNode)
inductive SelectionSetNode where
  | mk (selections : SelectionList)
inductive SelectionList where
  | nil
  | cons (hd : SelectionNode) (tl : SelectionList)
end

deriving instance DecidableEq for SelectionNode, OptSelectionSet, SelectionSetNode, SelectionList

/-- The selections of a selection set. -/
def SelectionSetNode.selections : SelectionSetNode → SelectionList
  | .mk sels => sels

/-- The directives attached to a selection. -/
def SelectionNode.directives : SelectionNode → List Directive
  | .field _ _ ds _ => ds
  | .fragmentSpread _ ds => ds
  | .inlineFragment _ ds _ => ds

/-- Membership of a selection in a selection list. -/
def SelectionList.toList : SelectionList → List SelectionNode
  | .nil => []
  | .cons s tl => s :: tl.toList

/-- A definition of a GraphQL document: an operation definition or a fragment
definition. -/
inductive Definition where
  | operation (selectionSet : SelectionSetNode)
  | fragment (name : String) (selectionSet : SelectionSetNode)
deriving DecidableEq

/-- The selection set of a definition. -/
def Definition.selectionSet : Definition → SelectionSetNode
  | .operation ss => ss
  | .fragment _ ss => ss

/-- `{ ...definition, selectionSet }`: the definition with its selection set
replaced. -/
def Definition.withSelectionSet : Definition → SelectionSetNode → Definition
  | .operation _, ss => .operation ss
  | .fragment n _, ss => .fragment n ss

/-- A GraphQL document (`DocumentNode`). -/
structure DocumentNode where
  definitions : List Definition
deriving DecidableEq

/-- `getMainDefinition` from `apollo-utilities` (external collaborator): the
first operation definition, else the first fragment definition; `none` models
the library's thrown error when neither exists. -/
def getMainDefinition (doc : DocumentNode) : Option Definition :=
  match doc.definitions.find? (fun d => match d with | .operation _ => true | _ => false) with
  | Option.some d => Option.some d
  | Option.none => doc.definitions.find? (fun d => match d with | .fragment _ _ => true | _ => false)

/-- A fragment map (`fragmentMapForDocument`): fragment name to definition.
`findMissingSelectionSets` receives it but never consults it. -/
def fragmentMapForDocument (doc : DocumentNode) : List (String × Definition) :=
  doc.definitions.filterMap fun d =>
    match d with
    | .fragment n _ => Option.some (n, d)
    | _ => Option.none

/-- Variable bindings of an operation. -/
abbrev JsonVariables := List (String × JsonValue)

/-- `shouldInclude` from `apollo-utilities` (external collaborator): every
`@skip`/`@include` directive on the selection must allow it; a variable-valued
`if` argument is resolved against the bound variables. -/
def shouldInclude (selection : SelectionNode) (variableValues : JsonVariables) : Bool :=
  selection.directives.all fun d =>
    let evaled :=
      match d.ifArg with
      | .lit b => b
      | .var n =>
        match variableValues.lookup n with
        | Option.some (.bool b) => b
        | _ => false
    if d.isInclude then evaled else !evaled

/-- Resolved arguments of a parameterized field. Argument values are opaque to
the read path (they are only handed to `nodeIdForParameterizedValue` and to
resolver redirects), so they are modelled as rendered strings. -/
abbrev FieldArguments := List (String × String)

/- The compiled parsed-query tree (`ParsedQueryNode`): per response key, the
underlying AST selection, optional children, the schema name when aliased,
optional arguments, and the compile-time `hasParameterizedChildren` bit.
`ParsedQuery` is the response-keyed map, in insertion order. -/
mutual
inductive ParsedQueryNode where
  | mk (selection : SelectionNode) (children : OptParsedQuery)
      (schemaName : Option String) (args : Option FieldArguments)
      (hasParameterizedChildren : Bool)
inductive OptParsedQuery where
  | none
  | some (pq : ParsedQuery)
inductive ParsedQuery where
  | nil
  | cons (key : String) (node : ParsedQueryNode) (tl : ParsedQuery)
end

deriving instance DecidableEq for ParsedQueryNode, OptParsedQuery, ParsedQuery

/-- The AST selection a compiled node was built from. -/
def ParsedQueryNode.selection : ParsedQueryNode → SelectionNode
  | .mk s _ _ _ _ => s

/-- The compiled children of a node (`undefined` for leaves). -/
def ParsedQueryNode.children : ParsedQueryNode → OptParsedQuery
  | .mk _ c _ _ _ => c

/-- The schema name of a node, present only when the field is aliased. -/
def ParsedQueryNode.schemaName : ParsedQueryNode → Option String
  | .mk _ _ n _ _ => n

/-- The resolved arguments of a node; presence marks the field parameterized. -/
def ParsedQueryNode.args : ParsedQueryNode → Option FieldArguments
  | .mk _ _ _ a _ => a

/-- Whether the node or any descendant is parameterized. -/
def ParsedQueryNode.hasParameterizedChildren : ParsedQueryNode → Bool
  | .mk _ _ _ _ h => h

/-- The fields handed to the visitor at one level of the walk: each response
key paired with the underlying AST selection
(`fields.push([fieldName, parsedOperation[fieldName].selection])`). -/
def collectFields : ParsedQuery → List (String × SelectionNode)
  | .nil => []
  | .cons key node tl => (key, node.selection) :: collectFields tl

/-- An operation visitor (`OperationVisitor` in the source): receives the
current value, the fields at this level and the enclosing selection node, and
returns `true` to stop descent, threading its mutable state explicitly. -/
def OperationVisitor (σ : Type) : Type :=
  JsonValue → List (String × SelectionNode) → Option SelectionNode → σ → Bool × σ

section Walk

variable {σ : Type} (visitor : OperationVisitor σ)

/- `walkOperation` from the source: a depth-first traversal driven by an
explicit stack of `(parsedOperation, parentSelection, parent)` states.  The
recursion below reproduces the pop order of that stack exactly: array
elements are pushed in reverse index order (hence processed forward), and a
node's child fields are pushed in insertion order (hence processed in
reverse insertion order, which `walkChildren` realizes by recursing on the
tail before the head). -/
mutual

def walkStep (parsedOperation : ParsedQuery) (parentSelection : Option SelectionNode)
    (parent : JsonValue) (s : σ) : σ :=
  match parent with
  | .null => s
  | .arr xs => walkArray parsedOperation parentSelection xs s
  | _ =>
    let fields := collectFields parsedOperation
    if fields.isEmpty then s
    else
      let r := visitor parent fields parentSelection s
      if r.1 then r.2
      else walkChildren parsedOperation parent r.2
  termination_by (sizeOf parsedOperation, sizeOf parent + 2)

def walkArray (parsedOperation : ParsedQuery) (parentSelection : Option SelectionNode)
    (xs : JsonList) (s : σ) : σ :=
  match xs with
  | .nil => s
  | .cons x tl =>
    walkArray parsedOperation parentSelection tl
      (walkStep parsedOperation parentSelection x s)
  termination_by (sizeOf parsedOperation, sizeOf xs + 2)

def walkChildren (entries : ParsedQuery) (parent : JsonValue) (s : σ) : σ :=
  match entries with
  | .nil => s
  | .cons key (.mk selection children _ _ _) tl =>
    let s' := walkChildren tl parent s
    match children with
    | .some nextParsedQuery =>
      walkStep nextParsedQuery (Option.some selection) (utilGet parent key) s'
    | .none => s'
  termination_by (sizeOf entries, 0)

end

/-- `walkOperation(rootOperation, result, visitor)`: the stack starts from the
root parsed operation with an undefined enclosing selection. -/
def walkOperation (rootOperation : ParsedQuery) (result : JsonValue) (s : σ) : σ :=
  walkStep visitor rootOperation Option.none result s

end Walk

/-- A raw operation handed to `read`: the document, its variable bindings and
the root node id. -/
structure RawOperation where
  rootId : NodeId
  document : DocumentNode
  variableValues : JsonVariables
deriving DecidableEq

/-- A compiled operation instance (`OperationInstance`): the root id, the
parsed-query tree used by the overlay engine (`operation.parsedQuery`, with
variables applied), the parsed tree used by the completeness visitor
(`operation.info.parsed`) and the `isStatic` bit. -/
structure OperationInstance where
  rootId : NodeId
  document : DocumentNode
  parsedQuery : ParsedQuery
  infoParsed : ParsedQuery
  isStatic : Bool
deriving DecidableEq

/-- A stored node of the graph snapshot (`NodeSnapshot`); `data` may be
`undefined`. -/
structure NodeSnapshot where
  data : JsonValue
deriving DecidableEq

/-- The result record of a read (`QueryResult`).  The source builds it up as a
mutable partial record, so every field starts out undefined: `result` starts
as the JavaScript value `undefined`, and the remaining fields are `Option`s. -/
structure QueryResult where
  result : JsonValue := .undefined
  complete : Option Bool := Option.none
  entityIds : Option (List NodeId) := Option.none
  dynamicNodeIds : Option (List NodeId) := Option.none
  partitionedQuery : Option DocumentNode := Option.none

/-- One immutable version of the graph store (`GraphSnapshot`): stored nodes
plus the per-snapshot read-result memoization table. -/
structure GraphSnapshot where
  nodes : List (NodeId × NodeSnapshot)
  readCache : List (OperationInstance × QueryResult)

/-- `snapshot.getNodeSnapshot(id)`. -/
def GraphSnapshot.getNodeSnapshot (snapshot : GraphSnapshot) (id : NodeId) : Option NodeSnapshot :=
  (snapshot.nodes.find? (fun e => e.1 = id)).map (·.2)

/-- `snapshot.getNodeData(id)`: the stored data of the node, or `undefined`
when the node does not exist. -/
def GraphSnapshot.getNodeData (snapshot : GraphSnapshot) (id : NodeId) : JsonValue :=
  match snapshot.getNodeSnapshot id with
  | Option.some node => node.data
  | Option.none => .undefined

/-- A resolver redirect (`CacheContext.ResolverRedirect`): maps the arguments
of a parameterized field to an alternative node id (or `nil`). -/
abbrev ResolverRedirect := FieldArguments → Option NodeId

/-- The ambient cache context (`CacheContext`), reduced to the collaborators
the read path consults: entity-identity resolution, the optional entity
transformer, the resolver-redirect table and operation parsing. -/
structure CacheContext where
  entityIdForValue : JsonValue → Option NodeId
  entityTransformer : Option (JsonValue → JsonValue)
  resolverRedirects : List (String × List (String × ResolverRedirect))
  parseOperation : RawOperation → OperationInstance

/-- `StaticNodeId.QueryRoot`. -/
def QueryRoot : NodeId := "ROOT_QUERY"

/-- `deepGet(context.resolverRedirects, [typeName, fieldName])`. -/
def lookupRedirect (redirects : List (String × List (String × ResolverRedirect)))
    (typeName fieldName : String) : Option ResolverRedirect :=
  match redirects.find? (fun e => e.1 = typeName) with
  | Option.some (_, byField) => (byField.find? (fun e => e.1 = fieldName)).map (·.2)
  | Option.none => Option.none

/-- Insertion into a set of node ids (`Set.add`), modelled as a
duplicate-free list. -/
def addNodeId (ids : List NodeId) (id : NodeId) : List NodeId :=
  if id ∈ ids then ids else ids ++ [id]

/-- The mutable state of the completeness visitor inside `_visitSelection`:
the `complete` flag, the `missingFields` accumulator and the optional set of
touched entity ids. -/
structure VisitState where
  complete : Bool
  missingFields : List SelectionNode
  nodeIds : Option (List NodeId)
deriving DecidableEq

/-- The `for (const [field, fieldNode] of fields)` loop of the completeness
visitor: at the first field whose key is not `in` the value, push that field's
selection node, clear `complete`, and break. -/
def visitMissingFieldsLoop (value : JsonValue) :
    List (String × SelectionNode) → VisitState → VisitState
  | [], s => s
  | (field, fieldNode) :: rest, s =>
    if jsHasProp value field then visitMissingFieldsLoop value rest s
    else { s with complete := false, missingFields := s.missingFields ++ [fieldNode] }

/-- The visitor closure of `_visitSelection`: an undefined value clears
`complete`, records the enclosing selection when one exists and prunes the
subtree; a non-object value is left to the walker; an object value records its
entity id (when ids are collected) and scans its fields for the first absent
one. -/
def visitFn (context : CacheContext) : OperationVisitor VisitState :=
  fun value fields parentSelection s =>
    match value with
    | .undefined =>
      (true, { s with
        complete := false,
        missingFields := s.missingFields ++ parentSelection.toList })
    | v =>
      if !isObject v then (false, s)
      else
        let s :=
          match s.nodeIds, context.entityIdForValue v with
          | Option.some ids, Option.some nodeId =>
            { s with nodeIds := Option.some (addNodeId ids nodeId) }
          | _, _ => s
        (false, visitMissingFieldsLoop v fields s)

/-- `_visitSelection(query, context, result, nodeIds)`: seeds the entity-id
set with the operation's root id when a result exists, then drives
`walkOperation` over `query.info.parsed` with the completeness visitor. -/
def _visitSelection (query : OperationInstance) (context : CacheContext)
    (result : JsonValue) (nodeIds : Option (List NodeId)) : VisitState :=
  let nodeIds :=
    match nodeIds, result with
    | Option.some ids, r =>
      if r ≠ .undefined then Option.some (addNodeId ids query.rootId) else Option.some ids
    | Option.none, _ => Option.none
  walkOperation (visitFn context) query.infoParsed result
    { complete := true, missingFields := [], nodeIds := nodeIds }

/- `findMissingSelectionSets` from the source: rebuilds a selection set
keeping, per original selection (after `shouldInclude` filtering), a scalar
field iff it is in the missing list, a subtree field verbatim iff it is in the
missing list, and otherwise a pruned recursion kept only when non-empty.
Non-`Field` selections contribute nothing.  `fields.indexOf(selection)` is
modelled by structural membership in the missing list.  The fragment map is
received but never consulted, as in the source. -/
mutual

def findMissingSelectionSets (selectionSet : SelectionSetNode)
    (variableValues : JsonVariables) (fragmentMap : List (String × Definition))
    (fields : List SelectionNode) : SelectionSetNode :=
  match selectionSet with
  | .mk selections =>
    .mk (findMissingSelections selections variableValues fragmentMap fields)

def findMissingSelections (selections : SelectionList)
    (variableValues : JsonVariables) (fragmentMap : List (String × Definition))
    (fields : List SelectionNode) : SelectionList :=
  match selections with
  | .nil => .nil
  | .cons selection rest =>
    let restResult := findMissingSelections rest variableValues fragmentMap fields
    if !shouldInclude selection variableValues then restResult
    else
      match selection with
      | .field name fieldAlias directives selSet =>
        match selSet with
        | .none =>
          if selection ∈ fields then .cons selection restResult else restResult
        | .some ss =>
          if selection ∈ fields then .cons selection restResult
          else
            let selectionToInsert :=
              findMissingSelectionSets ss variableValues fragmentMap fields
            if selectionToInsert.selections ≠ .nil then
              .cons (.field name fieldAlias directives (.some selectionToInsert)) restResult
            else restResult
      | _ => restResult

end

/-- `partitionQuery(fields, originalOperation)`: rebuilds the raw operation
with a single definition, the main definition with its selection set replaced
by the missing subset.  `none` models the error thrown by
`getMainDefinition` when the document has no definitions. -/
def partitionQuery (fields : List SelectionNode) (originalOperation : RawOperation) :
    Option RawOperation :=
  match getMainDefinition originalOperation.document with
  | Option.none => Option.none
  | Option.some mainDefinition =>
    let fragmentMap := fragmentMapForDocument originalOperation.document
    Option.some
      { originalOperation with
        document :=
          { definitions :=
              [mainDefinition.withSelectionSet
                (findMissingSelectionSets mainDefinition.selectionSet
                  originalOperation.variableValues fragmentMap fields)] } }

/-- Lookup in the per-snapshot memoization table (`snapshot.readCache.get`);
JavaScript `Map` identity of operation instances is modelled by structural
equality (`parseOperation` returns the same instance for the same raw
operation). -/
def cacheLookup (cache : List (OperationInstance × QueryResult))
    (operation : OperationInstance) : Option QueryResult :=
  (cache.find? (fun e => e.1 = operation)).map (·.2)

/-- Upsert into the memoization table (`snapshot.readCache.set`).  The source
stores the mutable record up front and mutates it in place; storing the final
record at the end of the read is observationally the same. -/
def cacheUpsert (cache : List (OperationInstance × QueryResult))
    (operation : OperationInstance) (value : QueryResult) :
    List (OperationInstance × QueryResult) :=
  match cache with
  | [] => [(operation, value)]
  | e :: tl =>
    if e.1 = operation then (operation, value) :: tl
    else e :: cacheUpsert tl operation value

/-- Modelled from the spec: `nodeIdForParameterizedValue` (imported from
`SnapshotEditor`, outside the excerpted source) — the external "deterministic
pure function `(containerId, path, args) -> identity`" for parameterized
fields. -/
def nodeIdForParameterizedValue (containerId : NodeId) (path : List PathPart)
    (args : FieldArguments) : NodeId :=
  let renderPart : PathPart → String := fun p =>
    match p with
    | .str s => s
    | .idx n => toString n
  containerId ++ "(" ++ String.intercalate "." (path.map renderPart) ++ ")(" ++
    String.intercalate "," (args.map fun a => a.1 ++ ":" ++ a.2) ++ ")"

/-- JavaScript property assignment `value[key] = child` as used by the overlay
engine.  The walked value is typed `JsonObject` in the source; on a non-object
runtime value the assignment cannot store anything (it is modelled as leaving
the value unchanged). -/
def jsSetProp (value : JsonValue) (key : String) (child : JsonValue) : JsonValue :=
  match value with
  | .obj fs => .obj (fs.setProp key child)
  | v => v

/-- `_wrapValue(value, context)`: `undefined` becomes a fresh empty object,
arrays and objects become shallow copies (invisible in a pure model), and a
copied entity object is passed through the entity transformer.  The
JavaScript truthiness test on the returned entity id treats the empty string
as no id. -/
def _wrapValue (value : JsonValue) (context : CacheContext) : JsonValue :=
  match value with
  | .undefined => .obj .nil
  | .arr xs => .arr xs
  | .obj fs =>
    match context.entityTransformer, context.entityIdForValue (.obj fs) with
    | Option.some transformer, Option.some id =>
      if id ≠ "" then transformer (.obj fs) else .obj fs
    | _, _ => .obj fs
  | v => v

/-- The parameterized-field resolution step of the overlay engine: the
synthetic identity is looked up in the snapshot; on a miss, the
`__typename`-keyed resolver-redirect table is consulted (with the `Query`
fallback at the static query root), and a redirected non-nil identity is
re-resolved.  Returns the resolved identity and its snapshot, or `none` when
the field stays unresolved.  A truthy non-string `__typename` does not take
the `Query` fallback and cannot match the string-keyed redirect table. -/
def resolveParameterizedField (context : CacheContext) (snapshot : GraphSnapshot)
    (value : JsonValue) (containerId : NodeId) (path : List PathPart)
    (fieldName : String) (nodeArgs : FieldArguments) : Option (NodeId × NodeSnapshot) :=
  let childId := nodeIdForParameterizedValue containerId (path ++ [.str fieldName]) nodeArgs
  match snapshot.getNodeSnapshot childId with
  | Option.some childSnapshot => Option.some (childId, childSnapshot)
  | Option.none =>
    let fallback : Option String :=
      if containerId = QueryRoot then Option.some "Query" else Option.none
    let typeName : Option String :=
      match utilGet value "__typename" with
      | .str s => if s ≠ "" then Option.some s else fallback
      | v => if jsTruthy v then Option.none else fallback
    match typeName with
    | Option.none => Option.none
    | Option.some tn =>
      match lookupRedirect context.resolverRedirects tn fieldName with
      | Option.none => Option.none
      | Option.some redirect =>
        match redirect nodeArgs with
        | Option.none => Option.none
        | Option.some redirectedId =>
          (snapshot.getNodeSnapshot redirectedId).map (fun cs => (redirectedId, cs))

/-- The underlying field name used by the overlay engine:
`node.schemaName ? node.schemaName : key` (an empty schema name is falsy in
JavaScript and falls back to the response key). -/
def effectiveFieldName (key : String) (node : ParsedQueryNode) : String :=
  match node.schemaName with
  | Option.some sn => if sn ≠ "" then sn else key
  | Option.none => key

section Overlay

variable (context : CacheContext) (snapshot : GraphSnapshot)

/- The stack-driven loop of `_walkAndOverlayDynamicValues`, as mutually
recursive functions.  The source queues a child walk node and assigns the
child into the value before the child is processed; since the queued
processing mutates only that child object, processing the child fully at the
moment it is queued yields the same final value (the order in which node ids
enter the dynamic-id set can differ, but its membership cannot). -/
mutual

def overlayWalkNode (value : JsonValue) (containerId : NodeId)
    (parsedMap : ParsedQuery) (path : List PathPart) (dyn : List NodeId) :
    JsonValue × List NodeId :=
  let reset : NodeId × List PathPart :=
    match context.entityIdForValue value with
    | Option.some valueId =>
      if valueId ≠ "" then (valueId, []) else (containerId, path)
    | Option.none => (containerId, path)
  overlayFields value reset.1 reset.2 parsedMap dyn
  termination_by (sizeOf parsedMap, 2, 0)

def overlayFields (value : JsonValue) (containerId : NodeId) (path : List PathPart)
    (entries : ParsedQuery) (dyn : List NodeId) : JsonValue × List NodeId :=
  match entries with
  | .nil => (value, dyn)
  | .cons key node tl =>
    let r := overlayFieldStep value containerId path key node dyn
    overlayFields r.1 containerId path tl r.2
  termination_by (sizeOf entries, 1, 0)

def overlayFieldStep (value : JsonValue) (containerId : NodeId) (path : List PathPart)
    (key : String) (node : ParsedQueryNode) (dyn : List NodeId) :
    JsonValue × List NodeId :=
  match node with
  | .mk selection children schemaName args hasParameterizedChildren =>
    let fieldName :=
      effectiveFieldName key (.mk selection children schemaName args hasParameterizedChildren)
    match args with
    | Option.some nodeArgs =>
      match resolveParameterizedField context snapshot value containerId path fieldName nodeArgs with
      | Option.none => (value, dyn)
      | Option.some (childId, childSnapshot) =>
        let dyn' := addNodeId dyn childId
        let r := overlayDescend childSnapshot.data childId children hasParameterizedChildren [] dyn'
        (jsSetProp value key r.1, r.2)
    | Option.none =>
      let r := overlayDescend (utilGet value fieldName) containerId children
        hasParameterizedChildren (path ++ [.str fieldName]) dyn
      (jsSetProp value key r.1, r.2)
  termination_by (sizeOf node, 0, 0)

def overlayDescend (child : JsonValue) (nextContainerId : NodeId)
    (children : OptParsedQuery) (hasParameterizedChildren : Bool)
    (nextPath : List PathPart) (dyn : List NodeId) : JsonValue × List NodeId :=
  match children with
  | .none => (child, dyn)
  | .some nextParsedQuery =>
    if hasParameterizedChildren then
      match child with
      | .null => (child, dyn)
      | .arr xs =>
        let r := overlayArray xs nextContainerId nextParsedQuery nextPath 0 dyn
        (.arr r.1, r.2)
      | c => overlayWalkNode (_wrapValue c context) nextContainerId nextParsedQuery nextPath dyn
    else (child, dyn)
  termination_by (sizeOf children, 0, 0)

def overlayArray (xs : JsonList) (nextContainerId : NodeId)
    (nextParsedQuery : ParsedQuery) (nextPath : List PathPart) (i : Nat)
    (dyn : List NodeId) : JsonList × List NodeId :=
  match xs with
  | .nil => (.nil, dyn)
  | .cons x tl =>
    match x with
    | .null =>
      let r := overlayArray tl nextContainerId nextParsedQuery nextPath (i + 1) dyn
      (.cons .null r.1, r.2)
    | x =>
      let rx := overlayWalkNode (_wrapValue x context) nextContainerId nextParsedQuery
        (nextPath ++ [.idx i]) dyn
      let r := overlayArray tl nextContainerId nextParsedQuery nextPath (i + 1) rx.2
      (.cons rx.1 r.1, r.2)
  termination_by (sizeOf nextParsedQuery, 3, sizeOf xs)

end

end Overlay

/-- `_walkAndOverlayDynamicValues(query, context, snapshot, result,
dynamicNodeIds)`: no-op when the root entity has no snapshot; otherwise walk
from a wrapped copy of the result at the root id with the operation's
parameterized parsed-query map. -/
def _walkAndOverlayDynamicValues (query : OperationInstance) (context : CacheContext)
    (snapshot : GraphSnapshot) (result : JsonValue) (dynamicNodeIds : List NodeId) :
    JsonValue × List NodeId :=
  match snapshot.getNodeSnapshot query.rootId with
  | Option.none => (result, dynamicNodeIds)
  | Option.some _ =>
    let newResult := _wrapValue result context
    overlayWalkNode context snapshot newResult query.rootId query.parsedQuery [] dynamicNodeIds

/- `read(context, raw, snapshot, includeNodeIds)` is embedded as the
composition of its three sequential blocks, each a named stage: the
recompute-on-missing-result block, the entity-id backfill block, and the
partitioned-query block.  Each stage also returns the `missingFields`
accumulator and the `cacheHit` flag the source threads through the body. -/

/-- The first block of `read`: when the memoized record holds no truthy
result, fetch the root data, overlay dynamic values for non-static
operations, and run the completeness visitor (collecting entity ids only when
requested). -/
def readFirstPass (context : CacheContext) (operation : OperationInstance)
    (snapshot : GraphSnapshot) (includeNodeIds : Bool) (queryResult : QueryResult) :
    QueryResult × List SelectionNode × Bool :=
  if !jsTruthy queryResult.result then
    let result0 := snapshot.getNodeData operation.rootId
    let overlaid : JsonValue × Option (List NodeId) :=
      if !operation.isStatic then
        let r := _walkAndOverlayDynamicValues operation context snapshot result0 []
        (r.1, Option.some r.2)
      else (result0, queryResult.dynamicNodeIds)
    let entityIds0 : Option (List NodeId) :=
      if includeNodeIds then Option.some [] else Option.none
    let visitResult := _visitSelection operation context overlaid.1 entityIds0
    ({ queryResult with
        result := overlaid.1
        dynamicNodeIds := overlaid.2
        entityIds := visitResult.nodeIds
        complete := Option.some visitResult.complete },
      visitResult.missingFields, false)
  else (queryResult, [], true)

/-- The second block of `read`: when entity ids are requested but the record
does not hold them yet, re-run the completeness visitor with id collection. -/
def readSecondPass (context : CacheContext) (operation : OperationInstance)
    (includeNodeIds : Bool) (firstPass : QueryResult × List SelectionNode × Bool) :
    QueryResult × List SelectionNode × Bool :=
  if includeNodeIds ∧ firstPass.1.entityIds = Option.none then
    let visitResult := _visitSelection operation context firstPass.1.result (Option.some [])
    ({ firstPass.1 with
        complete := Option.some visitResult.complete
        entityIds := visitResult.nodeIds },
      visitResult.missingFields, false)
  else firstPass

/-- The final block of `read`: the partitioned query is the original document
when there is no truthy result or nothing is missing, else the partitioner's
output. -/
def readPartition (raw : RawOperation) (queryResult : QueryResult)
    (missingFields : List SelectionNode) : QueryResult :=
  if !jsTruthy queryResult.result ∨ missingFields = [] then
    { queryResult with partitionedQuery := Option.some raw.document }
  else
    { queryResult with
        partitionedQuery := (partitionQuery missingFields raw).map (·.document) }

/-- `read(context, raw, snapshot, includeNodeIds)`: retrieve or start the
memoized record, run the three blocks, and store the final record back into
the snapshot's memoization table.  Returns the result record, the `cacheHit`
flag reported to the tracer, and the snapshot with its updated table. -/
def read (context : CacheContext) (raw : RawOperation) (snapshot : GraphSnapshot)
    (includeNodeIds : Bool) : QueryResult × Bool × GraphSnapshot :=
  let operation := context.parseOperation raw
  let queryResult := (cacheLookup snapshot.readCache operation).getD {}
  let firstPass := readFirstPass context operation snapshot includeNodeIds queryResult
  let secondPass := readSecondPass context operation includeNodeIds firstPass
  let queryResult := readPartition raw secondPass.1 secondPass.2.1
  (queryResult, secondPass.2.2,
    { snapshot with readCache := cacheUpsert snapshot.readCache operation queryResult })

/-- Helper: every node of the parsed-query level is a leaf (no compiled
children). -/
def allLeaf : ParsedQuery → Bool
  | .nil => true
  | .cons _ (.mk _ .none _ _ _) tl => allLeaf tl
  | .cons _ (.mk _ (.some _) _ _ _) _ => false


/-- Concrete fixture: the scalar value `7`. -/
def seven : JsonValue := .num 7

/-- Concrete fixture for the scalar-where-object-expected scenario
`{ a { b { c } } }` read against `{ a: 7 }`: the AST selections. -/
def selC4c : SelectionNode := .field "c" Option.none [] .none

/-- The `b { c }` selection of the scenario. -/
def selC4b : SelectionNode := .field "b" Option.none [] (.some (.mk (.cons selC4c .nil)))

/-- The `a { b { c } }` selection of the scenario. -/
def selC4a : SelectionNode := .field "a" Option.none [] (.some (.mk (.cons selC4b .nil)))

/-- The compiled tree of `{ a { b { c } } }`. -/
def parsedC4 : ParsedQuery :=
  .cons "a"
    (.mk selC4a
      (.some (.cons "b"
        (.mk selC4b (.some (.cons "c" (.mk selC4c .none Option.none Option.none false) .nil))
          Option.none Option.none false) .nil))
      Option.none Option.none false)
    .nil

/-- A cache context with no entity identities, no transformer, no redirects;
its `parseOperation` is irrelevant to the visitor-level scenarios. -/
def plainContext : CacheContext where
  entityIdForValue := fun _ => Option.none
  entityTransformer := Option.none
  resolverRedirects := []
  parseOperation := fun raw =>
    { rootId := raw.rootId, document := raw.document, parsedQuery := .nil,
      infoParsed := .nil, isStatic := true }

/-- The operation instance compiled from `{ a { b { c } } }`. -/
def opC4 : OperationInstance where
  rootId := QueryRoot
  document := { definitions := [.operation (.mk (.cons selC4a .nil))] }
  parsedQuery := parsedC4
  infoParsed := parsedC4
  isStatic := true

/-- C1 fixture: the `fizz` leaf selection of `{ foo { bar { fizz } baz { buzz } } }`. -/
def selFizz : SelectionNode := .field "fizz" Option.none [] .none

/-- C1 fixture: the `buzz` leaf selection. -/
def selBuzz : SelectionNode := .field "buzz" Option.none [] .none

/-- C1 fixture: the `bar { fizz }` selection. -/
def selBar : SelectionNode := .field "bar" Option.none [] (.some (.mk (.cons selFizz .nil)))

/-- C1 fixture: the `baz { buzz }` selection. -/
def selBaz : SelectionNode := .field "baz" Option.none [] (.some (.mk (.cons selBuzz .nil)))

/-- C1 fixture: the `foo { bar { fizz } baz { buzz } }` selection. -/
def selFoo : SelectionNode :=
  .field "foo" Option.none [] (.some (.mk (.cons selBar (.cons selBaz .nil))))

/-- C1 fixture: the document of `{ foo { bar { fizz } baz { buzz } } }`. -/
def docC1 : DocumentNode := { definitions := [.operation (.mk (.cons selFoo .nil))] }

/-- C1 fixture: the compiled parsed-query tree of the document. -/
def parsedC1 : ParsedQuery :=
  .cons "foo"
    (.mk selFoo
      (.some (.cons "bar"
        (.mk selBar (.some (.cons "fizz" (.mk selFizz .none Option.none Option.none false) .nil))
          Option.none Option.none false)
        (.cons "baz"
          (.mk selBaz (.some (.cons "buzz" (.mk selBuzz .none Option.none Option.none false) .nil))
            Option.none Option.none false) .nil)))
      Option.none Option.none false)
    .nil

/-- C1 fixture: the compiled static operation instance. -/
def opC1 : OperationInstance where
  rootId := QueryRoot
  document := docC1
  parsedQuery := parsedC1
  infoParsed := parsedC1
  isStatic := true

/-- C1 fixture: a context whose operation parsing yields `opC1`. -/
def ctxC1 : CacheContext where
  entityIdForValue := fun _ => Option.none
  entityTransformer := Option.none
  resolverRedirects := []
  parseOperation := fun _ => opC1

/-- C1 fixture: the raw operation handed to `read`. -/
def rawC1 : RawOperation where
  rootId := QueryRoot
  document := docC1
  variableValues := []

/-- C1 fixture: root data in which `foo.bar` is present but `foo.baz` is
absent. -/
def dataC1 : JsonValue :=
  .obj (.cons "foo" (.obj (.cons "bar" (.obj (.cons "fizz" (.num 1) .nil)) .nil)) .nil)

/-- C1 fixture: the snapshot storing `dataC1` at the query root, with an empty
memoization table. -/
def snapC1 : GraphSnapshot where
  nodes := [(QueryRoot, { data := dataC1 })]
  readCache := []

/-- C1 fixture: the expected partitioned document `{ foo { baz { buzz } } }`. -/
def expectedPartC1 : DocumentNode :=
  { definitions :=
      [.operation (.mk (.cons (.field "foo" Option.none [] (.some (.mk (.cons selBaz .nil)))) .nil))] }

/-- Whether a selection is a `Field` node. -/
def isFieldKind : SelectionNode → Bool
  | .field _ _ _ _ => true
  | _ => false

/-- Whether every selection of a list is a `Field` node. -/
def allFieldKind : SelectionList → Bool
  | .nil => true
  | .cons s tl => isFieldKind s && allFieldKind tl

/-- C8 fixture: a snapshot with no stored nodes at all (the operation's root
has no data). -/
def snapNoRoot : GraphSnapshot where
  nodes := []
  readCache := []

/-- C8 fixture: a memoized record holding a truthy (empty-object) result. -/
def qrCachedW : QueryResult where
  result := .obj .nil
  complete := Option.some true
  entityIds := Option.none
  dynamicNodeIds := Option.none
  partitionedQuery := Option.none

/-- C8 fixture: a snapshot whose memoization table already holds `qrCachedW`
for `opC1`. -/
def snapW : GraphSnapshot where
  nodes := []
  readCache := [(opC1, qrCachedW)]

/-- The entries of a parsed-query map, in insertion order. -/
def pqEntries : ParsedQuery → List (String × ParsedQueryNode)
  | .nil => []
  | .cons key node tl => (key, node) :: pqEntries tl

/-- The response keys of a parsed-query map, in insertion order. -/
def pqKeys : ParsedQuery → List String
  | .nil => []
  | .cons key _ tl => key :: pqKeys tl

/-- C6/C7 fixture: the AST selection of the parameterized scalar field `pw`. -/
def selPW : SelectionNode := .field "pw" Option.none [] .none

/-- C6/C7 fixture: a compiled parameterized scalar field (arguments, no
children). -/
def pqPW : ParsedQueryNode := .mk selPW .none Option.none (Option.some [("id", "1")]) true

/-- C6/C7 fixture: the one-field parsed query `{ pw(id: 1) }`. -/
def parsedPW : ParsedQuery := .cons "pw" pqPW .nil

/-- C6/C7 fixture: the non-static operation instance for `{ pw(id: 1) }`. -/
def opPW : OperationInstance where
  rootId := QueryRoot
  document := docC1
  parsedQuery := parsedPW
  infoParsed := parsedPW
  isStatic := false

/-- C6/C7 fixture: the synthetic identity of `pw(id: 1)` under the query
root. -/
def paramIdPW : NodeId := nodeIdForParameterizedValue QueryRoot [.str "pw"] [("id", "1")]

/-- C6 fixture: a snapshot storing scalar data under the synthetic identity. -/
def snapPW : GraphSnapshot where
  nodes := [(QueryRoot, { data := .obj .nil }), (paramIdPW, { data := .str "zap" })]
  readCache := []

/-- C7 fixture: a snapshot with the root but without the synthetic node. -/
def snapPWmiss : GraphSnapshot where
  nodes := [(QueryRoot, { data := .obj .nil })]
  readCache := []

/- The selections of a chain query `{ f1 { f2 { ... fn } } }`: each level
holds exactly one plain field (no aliases, arguments or directives);
`chainField f rest` is the field selection at the head of a chain. -/
def chainSelectionSet : List String → SelectionSetNode
  | [] => .mk .nil
  | [f] => .mk (.cons (.field f Option.none [] .none) .nil)
  | f :: g :: gs =>
    .mk (.cons (.field f Option.none [] (.some (chainSelectionSet (g :: gs)))) .nil)

def chainField (f : String) (rest : List String) : SelectionNode :=
  match rest with
  | [] => .field f Option.none [] .none
  | g :: gs => .field f Option.none [] (.some (chainSelectionSet (g :: gs)))

/-- The document of a chain query. -/
def chainDoc (c : List String) : DocumentNode :=
  { definitions := [.operation (chainSelectionSet c)] }

/-- The compiled parsed-query tree of a chain query; each node's `selection`
is the very AST node of `chainSelectionSet` at that depth, as the compiler
stores references into the document. -/
def chainParsed : List String → ParsedQuery
  | [] => .nil
  | [f] => .cons f (.mk (chainField f []) .none Option.none Option.none false) .nil
  | f :: g :: gs =>
    .cons f
      (.mk (chainField f (g :: gs)) (.some (chainParsed (g :: gs)))
        Option.none Option.none false)
      .nil

/-- The selection nodes of a chain, outermost first. -/
def chainSels : List String → List SelectionNode
  | [] => []
  | f :: rest => chainField f rest :: chainSels rest

/-- The compiled static operation instance of a chain query. -/
def chainOp (c : List String) : OperationInstance where
  rootId := QueryRoot
  document := chainDoc c
  parsedQuery := chainParsed c
  infoParsed := chainParsed c
  isStatic := true

/-- A context that parses every raw operation to the chain operation. -/
def chainCtx (c : List String) : CacheContext where
  entityIdForValue := fun _ => Option.none
  entityTransformer := Option.none
  resolverRedirects := []
  parseOperation := fun _ => chainOp c

/-- The raw chain operation. -/
def chainRaw (c : List String) : RawOperation where
  rootId := QueryRoot
  document := chainDoc c
  variableValues := []

/-- A fresh snapshot (empty memoization table) storing `d` as the query
root's data. -/
def chainSnap (d : JsonValue) : GraphSnapshot where
  nodes := [(QueryRoot, { data := d })]
  readCache := []

/- `extendValue old ss` is the stored value extended to contain exactly the
data a selection set requests: requested leaves absent from an object are
added with a sentinel value, requested subtrees are grafted recursively,
`null` values stay satisfied as they are, array elements are extended
element-wise, and a non-container value that must carry sub-fields is
replaced by exactly the requested fresh data. -/
mutual

def extendValue (old : JsonValue) (ss : SelectionSetNode) : JsonValue :=
  match old with
  | .null => .null
  | .arr xs => .arr (extendArr xs ss)
  | .obj fs =>
    match ss with
    | .mk sels => .obj (extendFields fs sels)
  | _ => freshValue ss
  termination_by (sizeOf ss, 1, sizeOf old)

def extendArr (xs : JsonList) (ss : SelectionSetNode) : JsonList :=
  match xs with
  | .nil => .nil
  | .cons x tl => .cons (extendValue x ss) (extendArr tl ss)
  termination_by (sizeOf ss, 1, sizeOf xs)

def extendFields (fs : JsonObject) (sels : SelectionList) : JsonObject :=
  match sels with
  | .nil => fs
  | .cons (.field name _ _ .none) tl =>
    let fs' := extendFields fs tl
    if fs'.hasProp name then fs' else .cons name (.bool true) fs'
  | .cons (.field name _ _ (.some sub)) tl =>
    let fs' := extendFields fs tl
    fs'.setProp name (extendValue ((fs'.lookupProp name).getD .undefined) sub)
  | .cons _ tl => extendFields fs tl
  termination_by (sizeOf sels, 0, 0)

def freshValue (ss : SelectionSetNode) : JsonValue :=
  match ss with
  | .mk sels => .obj (freshFields sels)
  termination_by (sizeOf ss, 0, 0)

def freshFields : SelectionList → JsonObject
  | .nil => .nil
  | .cons (.field name _ _ .none) tl => .cons name (.bool true) (freshFields tl)
  | .cons (.field name _ _ (.some sub)) tl => .cons name (freshValue sub) (freshFields tl)
  | .cons _ tl => freshFields tl
  termination_by sels => (sizeOf sels, 0, 0)

end

/-- The snapshot value extended to contain exactly the data requested by a
partitioned query document (its main definition's selection set). -/
def extendByDoc (old : JsonValue) (doc : DocumentNode) : JsonValue :=
  match getMainDefinition doc with
  | Option.some d => extendValue old d.selectionSet
  | Option.none => old

/- `chainOK c v`: whether the completeness visitor accepts value `v` for the
chain query `c` — null satisfies, undefined fails, arrays must satisfy
element-wise, an object must carry the head key and recursively satisfy the
tail on it, and a bare scalar passes exactly when the head is a leaf (the
walker then descends into `undefined`, which fails for a non-empty tail). -/
mutual

def chainOK (c : List String) (v : JsonValue) : Bool :=
  match c with
  | [] => true
  | f :: rest =>
    match v with
    | .null => true
    | .undefined => false
    | .arr xs => chainOKList (f :: rest) xs
    | .obj fs =>
      fs.hasProp f &&
        (match rest with
          | [] => true
          | g :: gs => chainOK (g :: gs) ((fs.lookupProp f).getD .undefined))
    | _ => rest.isEmpty
  termination_by (c.length, sizeOf v + 2)

def chainOKList (c : List String) (xs : JsonList) : Bool :=
  match xs with
  | .nil => true
  | .cons x tl => chainOK c x && chainOKList c tl
  termination_by (c.length, sizeOf xs + 2)

end

/- All AST selections referenced by a parsed-query tree. -/
mutual

def selsOfPQ : ParsedQuery → List SelectionNode
  | .nil => []
  | .cons _ node tl => selsOfNode node ++ selsOfPQ tl

def selsOfNode : ParsedQueryNode → List SelectionNode
  | .mk selection children _ _ _ => selection :: selsOfOpt children

def selsOfOpt : OptParsedQuery → List SelectionNode
  | .none => []
  | .some pq => selsOfPQ pq

end

/- Concrete fixture for the partition-extension counterexample: the
two-sibling query `{ a b }` read against a root whose data is the empty
object. -/

/-- The `a` leaf selection of `{ a b }`. -/
def selA2 : SelectionNode := .field "a" Option.none [] .none

/-- The `b` leaf selection of `{ a b }`. -/
def selB2 : SelectionNode := .field "b" Option.none [] .none

/-- The document of `{ a b }`. -/
def docAB : DocumentNode :=
  { definitions := [.operation (.mk (.cons selA2 (.cons selB2 .nil)))] }

/-- The compiled parsed tree of `{ a b }`. -/
def parsedAB : ParsedQuery :=
  .cons "a" (.mk selA2 .none Option.none Option.none false)
    (.cons "b" (.mk selB2 .none Option.none Option.none false) .nil)

/-- The compiled static operation instance of `{ a b }`. -/
def opAB : OperationInstance where
  rootId := QueryRoot
  document := docAB
  parsedQuery := parsedAB
  infoParsed := parsedAB
  isStatic := true

/-- A context that parses every raw operation to the `{ a b }` instance. -/
def ctxAB : CacheContext where
  entityIdForValue := fun _ => Option.none
  entityTransformer := Option.none
  resolverRedirects := []
  parseOperation := fun _ => opAB

/-- The raw `{ a b }` operation. -/
def rawAB : RawOperation where
  rootId := QueryRoot
  document := docAB
  variableValues := []

/-- A fresh snapshot storing the empty object as the query root's data. -/
def snapAB : GraphSnapshot where
  nodes := [(QueryRoot, { data := .obj .nil })]
  readCache := []

/-- The partitioned document the `{ a b }` read produces: only `{ a }`,
because the field loop breaks at the first absent sibling. -/
def docA : DocumentNode := { definitions := [.operation (.mk (.cons selA2 .nil))] }

/-- The `{ a b }` snapshot extended with exactly the data `{ a }` requests. -/
def snapABext : GraphSnapshot where
  nodes := [(QueryRoot, { data := extendByDoc (.obj .nil) docA })]
  readCache := []

/-! Theorems. -/

/-- `chainSelectionSet` wraps `chainField` at every non-empty level. -/
theorem chainSelectionSet_cons (f : String) (rest : List String) :
    chainSelectionSet (f :: rest) = .mk (.cons (chainField f rest) .nil) := by
  cases rest <;> rfl

theorem walkChildren_allLeaf {σ : Type} (visitor : OperationVisitor σ) :
    ∀ (p : ParsedQuery) (parent : JsonValue) (s : σ), allLeaf p = true →
      walkChildren visitor p parent s = s
  | .nil, parent, s, _ => by rw [walkChildren]
  | .cons key (.mk sel .none sn args hpc) tl, parent, s, h => by
    rw [walkChildren]
    have htl : allLeaf tl = true := by simpa [allLeaf] using h
    rw [walkChildren_allLeaf visitor tl parent s htl]
  | .cons key (.mk sel (.some ch) sn args hpc) tl, parent, s, h => by
    simp [allLeaf] at h

/-- Helper: the walker's `null` equation (`if (parent === null) continue`). -/
theorem walkStep_null_eq {σ : Type} (visitor : OperationVisitor σ)
    (parsedOperation : ParsedQuery) (parentSelection : Option SelectionNode)
    (s : σ) :
    walkStep visitor parsedOperation parentSelection .null s = s := by
  rw [walkStep]

/-- C5: a `null` value at any walk node short-circuits that branch: for every
visitor, parsed subtree and enclosing selection, the walker returns its state
unchanged — it never visits below the node, never invokes the visitor on it,
and leaves the threaded state (hence completeness and the missing list)
untouched. -/
theorem null_short_circuits_walk {σ : Type} (visitor : OperationVisitor σ)
    (parsedOperation : ParsedQuery) (parentSelection : Option SelectionNode)
    (s : σ) :
    walkStep visitor parsedOperation parentSelection .null s = s :=
  walkStep_null_eq visitor parsedOperation parentSelection s

/-- C3: in the completeness visitor, an undefined value clears `complete`;
when an enclosing selection node exists it — not the leaf — is appended to
the missing list; and the walker prunes descent: the whole walk from such a
node returns exactly the state the visitor produced, touching nothing
below. -/
theorem undefined_marks_enclosing_and_prunes (context : CacheContext)
    (parsedOperation : ParsedQuery) (parentSelection : Option SelectionNode)
    (s : VisitState) (h : collectFields parsedOperation ≠ []) :
    walkStep (visitFn context) parsedOperation parentSelection .undefined s =
      { complete := false,
        missingFields := s.missingFields ++ parentSelection.toList,
        nodeIds := s.nodeIds } := by
  rw [walkStep]
  case x_1 => intro heq; cases heq
  case x_2 => intro xs heq; cases heq
  rw [if_neg (by simpa [List.isEmpty_iff] using h)]
  simp [visitFn]

/-- Witness for C3 at a concrete input: the one-field level `{ a { b { c } } }`
paired with an undefined value and the enclosing selection `b`. -/
theorem undefined_marks_enclosing_and_prunes_witness :
    collectFields parsedC4 ≠ [] ∧
      walkStep (visitFn plainContext) parsedC4 (Option.some selC4b) .undefined
        { complete := true, missingFields := [], nodeIds := Option.none } =
        { complete := false, missingFields := [selC4b], nodeIds := Option.none } :=
  ⟨by decide,
    undefined_marks_enclosing_and_prunes plainContext parsedC4 (Option.some selC4b)
      { complete := true, missingFields := [], nodeIds := Option.none } (by decide)⟩

/-- C4 counterexample: reading `{ a { b { c } } }` against `{ a: 7 }` — the
value at `a` is present but is a scalar while the compiled node expects
children.  The claim says the branch is treated as satisfied, descent stops
and nothing is flagged missing; in fact the walker descends into the scalar
with undefined children and flags the `b` selection missing, clearing
`complete`. -/
theorem scalar_with_children_flags_missing :
    (_visitSelection opC4 plainContext (.obj (.cons "a" seven .nil)) Option.none).complete
        = false ∧
      (_visitSelection opC4 plainContext (.obj (.cons "a" seven .nil)) Option.none).missingFields
        = [selC4b] := by
  constructor <;>
    simp [_visitSelection, walkOperation, walkStep, walkArray, walkChildren, visitFn,
      visitMissingFieldsLoop, collectFields, utilGet, jsHasProp, isObject,
      JsonObject.lookupProp, JsonObject.hasProp, addNodeId, opC4, parsedC4, plainContext,
      seven, selC4a, selC4b, selC4c, ParsedQueryNode.selection, ParsedQueryNode.children]

/-- C4 amended: for a present, non-null, non-object value, the visitor itself
flags nothing and does not prune (it returns `false` with the state
unchanged); and when every compiled field at that level is a leaf, the walk
leaves the state unchanged, so nothing is flagged missing for that branch.
The unamended claim fails only when some field at the level carries
sub-selections (see the counterexample). -/
theorem scalar_value_not_flagged_at_level (context : CacheContext)
    (v : JsonValue) (hundef : v ≠ .undefined) (hobj : isObject v = false)
    (fields : List (String × SelectionNode)) (parentSelection : Option SelectionNode)
    (s : VisitState) (parsedOperation : ParsedQuery) :
    visitFn context v fields parentSelection s = (false, s) ∧
      (allLeaf parsedOperation = true →
        walkStep (visitFn context) parsedOperation parentSelection v s = s) := by
  constructor
  · cases v <;> simp_all [visitFn, isObject]
  · intro hleaf
    cases v with
    | null => exact walkStep_null_eq _ _ _ _
    | arr xs => simp [isObject] at hobj
    | obj fs => simp [isObject] at hobj
    | undefined => exact absurd rfl hundef
    | bool b =>
      rw [walkStep]
      case x_1 => intro heq; cases heq
      case x_2 => intro xs heq; cases heq
      cases hfe : (collectFields parsedOperation).isEmpty
      · simp only [hfe, Bool.false_eq_true, if_false, visitFn, isObject, Bool.not_false]
        exact walkChildren_allLeaf _ _ _ _ hleaf
      · simp [hfe]
    | num n =>
      rw [walkStep]
      case x_1 => intro heq; cases heq
      case x_2 => intro xs heq; cases heq
      cases hfe : (collectFields parsedOperation).isEmpty
      · simp only [hfe, Bool.false_eq_true, if_false, visitFn, isObject, Bool.not_false]
        exact walkChildren_allLeaf _ _ _ _ hleaf
      · simp [hfe]
    | str t =>
      rw [walkStep]
      case x_1 => intro heq; cases heq
      case x_2 => intro xs heq; cases heq
      cases hfe : (collectFields parsedOperation).isEmpty
      · simp only [hfe, Bool.false_eq_true, if_false, visitFn, isObject, Bool.not_false]
        exact walkChildren_allLeaf _ _ _ _ hleaf
      · simp [hfe]

/-- Witness for the amended C4 theorem at a concrete input: the scalar `7`
under a level of two leaf fields. -/
theorem scalar_value_not_flagged_at_level_witness :
    seven ≠ .undefined ∧ isObject seven = false ∧
      allLeaf (.cons "x" (.mk selC4c .none Option.none Option.none false) .nil) = true ∧
      walkStep (visitFn plainContext)
        (.cons "x" (.mk selC4c .none Option.none Option.none false) .nil)
        Option.none seven
        { complete := true, missingFields := [], nodeIds := Option.none } =
        { complete := true, missingFields := [], nodeIds := Option.none } :=
  ⟨by decide, by decide, by decide,
    (scalar_value_not_flagged_at_level plainContext seven (by decide) (by decide)
      [] Option.none { complete := true, missingFields := [], nodeIds := Option.none }
      (.cons "x" (.mk selC4c .none Option.none Option.none false) .nil)).2 (by decide)⟩

/-- C1: reading `{ foo { bar { fizz } baz { buzz } } }` against a snapshot
where `foo.bar` is present but `foo.baz` is absent yields `complete = false`;
the missing-selections list collected by the completeness visitor (invoked by
`read` on exactly these arguments) contains the `baz` selection node and
nothing but it (it records it twice — once when `baz` is found absent among
its siblings and once when the walker descends into it); and the partitioned
query document is `{ foo { baz { buzz } } }`. -/
theorem end_to_end_partition_scenario :
    (read ctxC1 rawC1 snapC1 false).1.complete = Option.some false ∧
      ((_visitSelection opC1 ctxC1 dataC1 Option.none).missingFields = [selBaz, selBaz] ∧
        ∀ s ∈ (_visitSelection opC1 ctxC1 dataC1 Option.none).missingFields, s = selBaz) ∧
      (read ctxC1 rawC1 snapC1 false).1.partitionedQuery = Option.some expectedPartC1 := by
  have hvisit : _visitSelection opC1 ctxC1 dataC1 Option.none =
      { complete := false, missingFields := [selBaz, selBaz], nodeIds := Option.none } := by
    simp [_visitSelection, walkOperation, walkStep, walkArray, walkChildren, visitFn,
      visitMissingFieldsLoop, collectFields, utilGet, jsHasProp, isObject,
      JsonObject.lookupProp, JsonObject.hasProp, addNodeId, opC1, parsedC1, ctxC1,
      dataC1, selFoo, selBar, selBaz, selFizz, selBuzz,
      ParsedQueryNode.selection, ParsedQueryNode.children]
  have hfp : readFirstPass ctxC1 opC1 snapC1 false {} =
      ({ result := dataC1, complete := Option.some false, entityIds := Option.none,
          dynamicNodeIds := Option.none, partitionedQuery := Option.none },
        [selBaz, selBaz], false) := by
    rw [readFirstPass]
    rw [show jsTruthy (QueryResult.mk .undefined Option.none Option.none Option.none
      Option.none).result = false from rfl]
    rw [show snapC1.getNodeData opC1.rootId = dataC1 from by decide]
    simp only [show opC1.isStatic = true from rfl, Bool.not_true, Bool.not_false,
      Bool.false_eq_true, if_false, if_true, hvisit]
  have hsp : readSecondPass ctxC1 opC1 false
      ({ result := dataC1, complete := Option.some false, entityIds := Option.none,
          dynamicNodeIds := Option.none, partitionedQuery := Option.none },
        [selBaz, selBaz], false) =
      ({ result := dataC1, complete := Option.some false, entityIds := Option.none,
          dynamicNodeIds := Option.none, partitionedQuery := Option.none },
        [selBaz, selBaz], false) := by
    rw [readSecondPass]
    simp
  have hpartition : readPartition rawC1
      { result := dataC1, complete := Option.some false, entityIds := Option.none,
        dynamicNodeIds := Option.none, partitionedQuery := Option.none }
      [selBaz, selBaz] =
      { result := dataC1, complete := Option.some false, entityIds := Option.none,
        dynamicNodeIds := Option.none, partitionedQuery := Option.some expectedPartC1 } := by
    rw [readPartition]
    rw [show jsTruthy dataC1 = true from by decide]
    simp only [Bool.not_true, Bool.false_eq_true, false_or]
    rw [if_neg (by simp : ¬ (([selBaz, selBaz] : List SelectionNode) = []))]
    rw [show (partitionQuery [selBaz, selBaz] rawC1).map (·.document)
      = Option.some expectedPartC1 from by decide]
  have hread : read ctxC1 rawC1 snapC1 false =
      ({ result := dataC1, complete := Option.some false, entityIds := Option.none,
          dynamicNodeIds := Option.none, partitionedQuery := Option.some expectedPartC1 },
        false,
        { nodes := snapC1.nodes,
          readCache := cacheUpsert snapC1.readCache opC1
            { result := dataC1, complete := Option.some false, entityIds := Option.none,
              dynamicNodeIds := Option.none,
              partitionedQuery := Option.some expectedPartC1 } }) := by
    rw [read]
    rw [show ctxC1.parseOperation rawC1 = opC1 from rfl]
    rw [show (cacheLookup snapC1.readCache opC1).getD {} = {} from rfl]
    rw [hfp, hsp, hpartition]
  refine ⟨?_, ⟨?_, ?_⟩, ?_⟩
  · rw [hread]
  · rw [hvisit]
  · rw [hvisit]
    decide
  · rw [hread]

/-- Every selection list rebuilt by `findMissingSelections` consists of
`Field` nodes only: fragment spreads and inline fragments are never kept. -/
theorem allFieldKind_findMissingSelections :
    ∀ (sels : SelectionList) (vv : JsonVariables) (fm : List (String × Definition))
      (fields : List SelectionNode),
      allFieldKind (findMissingSelections sels vv fm fields) = true
  | .nil, vv, fm, fields => by rw [findMissingSelections]; rfl
  | .cons selection rest, vv, fm, fields => by
    have ih := allFieldKind_findMissingSelections rest vv fm fields
    cases selection with
    | fragmentSpread n ds =>
      rw [findMissingSelections]
      case x_2 => intro a b c d heq; cases heq
      by_cases hinc : shouldInclude (.fragmentSpread n ds) vv = true <;> simp [hinc, ih]
    | inlineFragment tc ds ss =>
      rw [findMissingSelections]
      case x_2 => intro a b c d heq; cases heq
      by_cases hinc : shouldInclude (.inlineFragment tc ds ss) vv = true <;> simp [hinc, ih]
    | field name fieldAlias directives selSet =>
      cases selSet with
      | none =>
        rw [findMissingSelections]
        by_cases hinc : shouldInclude (.field name fieldAlias directives .none) vv = true
        case neg => simp [hinc, ih]
        by_cases hmem : SelectionNode.field name fieldAlias directives .none ∈ fields
        · simp [hinc, hmem, allFieldKind, isFieldKind, ih]
        · simp [hinc, hmem, ih]
      | some ss =>
        rw [findMissingSelections]
        by_cases hinc : shouldInclude (.field name fieldAlias directives (.some ss)) vv = true
        case neg => simp [hinc, ih]
        by_cases hmem : SelectionNode.field name fieldAlias directives (.some ss) ∈ fields
        · simp [hinc, hmem, allFieldKind, isFieldKind, ih]
        · by_cases hne : (findMissingSelectionSets ss vv fm fields).selections ≠ SelectionList.nil
          · simp [hinc, hmem, hne, allFieldKind, isFieldKind, ih]
          · simp [hinc, hmem, hne, ih]
  termination_by sels _ _ _ => sizeOf sels

/-- C10: for any missing-selections list, `partitionQuery` produces a document
with exactly one definition — the main operation definition rebuilt around the
missing selection subset, fragment definitions being dropped — and every
selection of every rebuilt selection set (the root one and, recursively, every
set `findMissingSelections` constructs) is a `Field` node; fragment spreads
and inline fragments are discarded.  (A field kept verbatim because it is
itself missing retains its original subtree untraversed.) -/
theorem partition_single_definition_field_selections
    (fields : List SelectionNode) (raw : RawOperation) (mainDef : Definition)
    (h : getMainDefinition raw.document = Option.some mainDef) :
    (∃ newOperation, partitionQuery fields raw = Option.some newOperation ∧
      newOperation.document.definitions =
        [mainDef.withSelectionSet (findMissingSelectionSets mainDef.selectionSet
          raw.variableValues (fragmentMapForDocument raw.document) fields)]) ∧
    (∀ (ss : SelectionSetNode) (vv : JsonVariables) (fm : List (String × Definition)),
      allFieldKind (findMissingSelections ss.selections vv fm fields) = true) := by
  constructor
  · refine ⟨{ raw with document := { definitions := [mainDef.withSelectionSet
        (findMissingSelectionSets mainDef.selectionSet raw.variableValues
          (fragmentMapForDocument raw.document) fields)] } }, ?_, rfl⟩
    rw [partitionQuery, h]
  · intro ss vv fm
    exact allFieldKind_findMissingSelections ss.selections vv fm fields

/-- Witness for C10 at a concrete input: the C1 document (one operation
definition) with an empty missing list. -/
theorem partition_single_definition_field_selections_witness :
    getMainDefinition rawC1.document = Option.some (.operation (.mk (.cons selFoo .nil))) ∧
      ((∃ newOperation, partitionQuery [] rawC1 = Option.some newOperation ∧
        newOperation.document.definitions =
          [(Definition.operation (.mk (.cons selFoo .nil))).withSelectionSet
            (findMissingSelectionSets (Definition.operation (.mk (.cons selFoo .nil))).selectionSet
              rawC1.variableValues (fragmentMapForDocument rawC1.document) [])]) ∧
      (∀ (ss : SelectionSetNode) (vv : JsonVariables) (fm : List (String × Definition)),
        allFieldKind (findMissingSelections ss.selections vv fm []) = true)) :=
  ⟨by decide,
    partition_single_definition_field_selections [] rawC1 (.operation (.mk (.cons selFoo .nil)))
      (by decide)⟩

/-- The field loop of the completeness visitor never touches the entity-id
set. -/
theorem visitMissingFieldsLoop_nodeIds (v : JsonValue) :
    ∀ (fields : List (String × SelectionNode)) (s : VisitState),
      (visitMissingFieldsLoop v fields s).nodeIds = s.nodeIds
  | [], s => rfl
  | (field, fieldNode) :: rest, s => by
    rw [visitMissingFieldsLoop]
    by_cases h : jsHasProp v field = true
    · rw [if_pos h]; exact visitMissingFieldsLoop_nodeIds v rest s
    · rw [if_neg h]

/-- The completeness visitor preserves presence of the entity-id set. -/
theorem visitFn_nodeIds_isSome (context : CacheContext) (v : JsonValue)
    (fields : List (String × SelectionNode)) (psel : Option SelectionNode)
    (s : VisitState) (h : s.nodeIds.isSome = true) :
    ((visitFn context v fields psel s).2).nodeIds.isSome = true := by
  cases v with
  | undefined => simpa [visitFn] using h
  | obj fs =>
    show ((visitFn context (.obj fs) fields psel s).2).nodeIds.isSome = true
    rw [visitFn]
    case x => intro heq; cases heq
    simp only [isObject, Bool.not_true, Bool.false_eq_true, if_false]
    cases hids : s.nodeIds with
    | none => simp [hids] at h
    | some ids =>
      cases hent : context.entityIdForValue (.obj fs) with
      | none => simp [hids, hent, visitMissingFieldsLoop_nodeIds, h]
      | some nodeId => simp [hids, hent, visitMissingFieldsLoop_nodeIds]
  | null => simpa [visitFn, isObject, visitMissingFieldsLoop_nodeIds] using h
  | bool b => simpa [visitFn, isObject, visitMissingFieldsLoop_nodeIds] using h
  | num n => simpa [visitFn, isObject, visitMissingFieldsLoop_nodeIds] using h
  | str t => simpa [visitFn, isObject, visitMissingFieldsLoop_nodeIds] using h
  | arr xs =>
    show ((visitFn context (.arr xs) fields psel s).2).nodeIds.isSome = true
    rw [visitFn]
    case x => intro heq; cases heq
    simp only [isObject, Bool.not_true, Bool.false_eq_true, if_false]
    cases hids : s.nodeIds with
    | none => simp [hids] at h
    | some ids =>
      cases hent : context.entityIdForValue (.arr xs) with
      | none => simp [hids, hent, visitMissingFieldsLoop_nodeIds, h]
      | some nodeId => simp [hids, hent, visitMissingFieldsLoop_nodeIds]


mutual

theorem walkStep_nodeIds_isSome (context : CacheContext) (p : ParsedQuery)
    (psel : Option SelectionNode) (v : JsonValue) (s : VisitState)
    (h : s.nodeIds.isSome = true) :
    ((walkStep (visitFn context) p psel v s).nodeIds).isSome = true := by
  rw [walkStep.eq_def]
  split
  · exact h
  · next xs => exact walkArray_nodeIds_isSome context p psel xs s h
  · next v' hnull harr =>
    by_cases hfe : (collectFields p).isEmpty = true
    · simpa [hfe] using h
    · by_cases hr : (visitFn context v (collectFields p) psel s).1 = true
      · simpa [hfe, hr] using visitFn_nodeIds_isSome context v (collectFields p) psel s h
      · simpa [hfe, hr] using
          walkChildren_nodeIds_isSome context p v _
            (visitFn_nodeIds_isSome context v (collectFields p) psel s h)
  termination_by (sizeOf p, sizeOf v + 2)

theorem walkArray_nodeIds_isSome (context : CacheContext) (p : ParsedQuery)
    (psel : Option SelectionNode) (xs : JsonList) (s : VisitState)
    (h : s.nodeIds.isSome = true) :
    ((walkArray (visitFn context) p psel xs s).nodeIds).isSome = true := by
  rw [walkArray.eq_def]
  split
  · exact h
  · next x tl =>
    exact walkArray_nodeIds_isSome context p psel tl _
      (walkStep_nodeIds_isSome context p psel x s h)
  termination_by (sizeOf p, sizeOf xs + 2)

theorem walkChildren_nodeIds_isSome (context : CacheContext) (entries : ParsedQuery)
    (parent : JsonValue) (s : VisitState) (h : s.nodeIds.isSome = true) :
    ((walkChildren (visitFn context) entries parent s).nodeIds).isSome = true := by
  rw [walkChildren.eq_def]
  split
  · exact h
  · split
    · next nextParsedQuery =>
      exact walkStep_nodeIds_isSome context nextParsedQuery _ _ _
        (walkChildren_nodeIds_isSome context _ parent s h)
    · exact walkChildren_nodeIds_isSome context _ parent s h
  termination_by (sizeOf entries, 0)

end

/-- `_visitSelection` keeps the entity-id set present when one is supplied. -/
theorem _visitSelection_nodeIds_isSome (query : OperationInstance)
    (context : CacheContext) (result : JsonValue) (ids : List NodeId) :
    ((_visitSelection query context result (Option.some ids)).nodeIds).isSome = true := by
  rw [_visitSelection, walkOperation]
  apply walkStep_nodeIds_isSome
  split <;> rfl

/-- Looking up the operation just upserted into the memoization table yields
the stored record. -/
theorem cacheLookup_cacheUpsert (cache : List (OperationInstance × QueryResult))
    (operation : OperationInstance) (value : QueryResult) :
    cacheLookup (cacheUpsert cache operation value) operation = Option.some value := by
  induction cache with
  | nil => simp [cacheUpsert, cacheLookup]
  | cons e tl ih =>
    by_cases he : e.1 = operation
    · simp [cacheUpsert, cacheLookup, he]
    · rw [cacheUpsert]
      rw [if_neg he]
      rw [cacheLookup]
      rw [List.find?_cons_of_neg _ (by simpa using he)]
      simpa [cacheLookup] using ih

/-- The partition block only sets `partitionedQuery`; `complete`, `entityIds`
and `result` are untouched. -/
theorem readPartition_preserves (raw : RawOperation) (queryResult : QueryResult)
    (missingFields : List SelectionNode) :
    (readPartition raw queryResult missingFields).complete = queryResult.complete ∧
      (readPartition raw queryResult missingFields).entityIds = queryResult.entityIds ∧
      (readPartition raw queryResult missingFields).result = queryResult.result := by
  rw [readPartition]
  split <;> exact ⟨rfl, rfl, rfl⟩

/-- After the second block with `includeNodeIds` requested, the record holds
an entity-id set. -/
theorem readSecondPass_entityIds_isSome (context : CacheContext)
    (operation : OperationInstance) (firstPass : QueryResult × List SelectionNode × Bool) :
    (((readSecondPass context operation true firstPass).1.entityIds)).isSome = true := by
  rw [readSecondPass]
  split
  · exact _visitSelection_nodeIds_isSome operation context firstPass.1.result []
  · next hcond =>
    rw [Option.isSome_iff_ne_none]
    intro hnone
    exact hcond ⟨rfl, hnone⟩

/-- Any read that requests entity ids returns a record holding them. -/
theorem read_entityIds_isSome (context : CacheContext) (raw : RawOperation)
    (snapshot : GraphSnapshot) :
    ((read context raw snapshot true).1.entityIds).isSome = true := by
  rw [read]
  dsimp only
  rw [(readPartition_preserves raw _ _).2.1]
  exact readSecondPass_entityIds_isSome context (context.parseOperation raw) _

/-- A read against a snapshot whose memoization table holds a record with a
truthy result (and entity ids whenever they are requested) is a pure cache
hit: no recomputation, same `complete` and `entityIds`. -/
theorem read_after_hit (context : CacheContext) (raw : RawOperation)
    (snap2 : GraphSnapshot) (includeNodeIds : Bool) (qr : QueryResult)
    (hl : cacheLookup snap2.readCache (context.parseOperation raw) = Option.some qr)
    (ht : jsTruthy qr.result = true)
    (hids : includeNodeIds = true → qr.entityIds.isSome = true) :
    (read context raw snap2 includeNodeIds).2.1 = true ∧
      (read context raw snap2 includeNodeIds).1.complete = qr.complete ∧
      (read context raw snap2 includeNodeIds).1.entityIds = qr.entityIds := by
  have hfp : readFirstPass context (context.parseOperation raw) snap2 includeNodeIds qr
      = (qr, [], true) := by
    rw [readFirstPass]
    simp only [ht, Bool.not_true, Bool.false_eq_true, if_false]
  have hsp : readSecondPass context (context.parseOperation raw) includeNodeIds (qr, [], true)
      = (qr, [], true) := by
    rw [readSecondPass]
    rw [if_neg ?_]
    rintro ⟨hinc, hnone⟩
    rw [Option.isSome_iff_ne_none] at hids
    exact hids hinc hnone
  rw [read]
  dsimp only
  rw [hl, Option.getD_some, hfp, hsp]
  exact ⟨rfl, (readPartition_preserves raw qr []).1, (readPartition_preserves raw qr []).2.1⟩

/-- C8 amended: `read()` is memoized per (operation instance, snapshot
version) provided the first read produced a truthy result: re-reading with
the same arguments against the returned snapshot is a cache hit
(`cacheHit = true`, no recomputation) with identical `complete` and
`entityIds`.  When the root data is absent, the second call recomputes
(see the counterexample), though its `complete` and `entityIds` still
agree. -/
theorem read_memoized_when_result_truthy (context : CacheContext) (raw : RawOperation)
    (snapshot : GraphSnapshot) (includeNodeIds : Bool)
    (h : jsTruthy (read context raw snapshot includeNodeIds).1.result = true) :
    (read context raw (read context raw snapshot includeNodeIds).2.2 includeNodeIds).2.1
        = true ∧
      (read context raw (read context raw snapshot includeNodeIds).2.2 includeNodeIds).1.complete
        = (read context raw snapshot includeNodeIds).1.complete ∧
      (read context raw (read context raw snapshot includeNodeIds).2.2 includeNodeIds).1.entityIds
        = (read context raw snapshot includeNodeIds).1.entityIds := by
  have hsnap : (read context raw snapshot includeNodeIds).2.2.readCache
      = cacheUpsert snapshot.readCache (context.parseOperation raw)
          (read context raw snapshot includeNodeIds).1 := rfl
  have hl : cacheLookup (read context raw snapshot includeNodeIds).2.2.readCache
      (context.parseOperation raw)
      = Option.some (read context raw snapshot includeNodeIds).1 := by
    rw [hsnap]
    exact cacheLookup_cacheUpsert _ _ _
  refine read_after_hit context raw _ includeNodeIds _ hl h ?_
  intro hinc
  subst hinc
  exact read_entityIds_isSome context raw snapshot

/-- Witness for the amended C8 theorem at a concrete input: a snapshot whose
memoization table already holds a truthy record for the operation. -/
theorem read_memoized_when_result_truthy_witness :
    jsTruthy (read ctxC1 rawC1 snapW false).1.result = true ∧
      ((read ctxC1 rawC1 (read ctxC1 rawC1 snapW false).2.2 false).2.1 = true ∧
        (read ctxC1 rawC1 (read ctxC1 rawC1 snapW false).2.2 false).1.complete
          = (read ctxC1 rawC1 snapW false).1.complete ∧
        (read ctxC1 rawC1 (read ctxC1 rawC1 snapW false).2.2 false).1.entityIds
          = (read ctxC1 rawC1 snapW false).1.entityIds) :=
  ⟨by decide, read_memoized_when_result_truthy ctxC1 rawC1 snapW false (by decide)⟩

/-- C8 counterexample: against a snapshot with no root data, the second
identical read is *not* served from the memoization table — it recomputes
(`cacheHit = false`), contradicting the unconditional idempotence claim. -/
theorem read_recomputes_when_root_absent :
    (read ctxC1 rawC1 (read ctxC1 rawC1 snapNoRoot false).2.2 false).2.1 = false := by
  decide

/-- Setting a property then reading it back yields the written value. -/
theorem lookupProp_setProp_self :
    ∀ (fs : JsonObject) (key : String) (v : JsonValue),
      (fs.setProp key v).lookupProp key = Option.some v
  | .nil, key, v => by simp [JsonObject.setProp, JsonObject.lookupProp]
  | .cons k old tl, key, v => by
    by_cases hk : k = key
    · subst hk
      simp [JsonObject.setProp, JsonObject.lookupProp]
    · simp only [JsonObject.setProp, if_neg hk, JsonObject.lookupProp]
      exact lookupProp_setProp_self tl key v

/-- Setting a property leaves every other property unchanged. -/
theorem lookupProp_setProp_ne :
    ∀ (fs : JsonObject) (key k : String) (v : JsonValue), k ≠ key →
      (fs.setProp key v).lookupProp k = fs.lookupProp k
  | .nil, key, k, v, hk => by
    simp [JsonObject.setProp, JsonObject.lookupProp, Ne.symm hk]
  | .cons k0 old tl, key, k, v, hk => by
    by_cases h0 : k0 = key
    · subst h0
      simp only [JsonObject.setProp, if_pos rfl, JsonObject.lookupProp]
      rw [if_neg (fun h => hk h.symm), if_neg (fun h => hk h.symm)]
    · simp only [JsonObject.setProp, if_neg h0, JsonObject.lookupProp]
      by_cases h1 : k0 = k
      · rw [if_pos h1, if_pos h1]
      · rw [if_neg h1, if_neg h1]
        exact lookupProp_setProp_ne tl key k v hk

/-- Reading the just-assigned key of an object. -/
theorem utilGet_jsSetProp_self (fs : JsonObject) (key : String) (c : JsonValue) :
    utilGet (jsSetProp (.obj fs) key c) key = c := by
  simp only [jsSetProp, utilGet, lookupProp_setProp_self]
  rfl

/-- Reading any other key after an assignment. -/
theorem utilGet_jsSetProp_ne (value : JsonValue) (key k : String) (c : JsonValue)
    (hk : k ≠ key) : utilGet (jsSetProp value key c) k = utilGet value k := by
  cases value with
  | obj fs => simp only [jsSetProp, utilGet, lookupProp_setProp_ne fs key k c hk]
  | undefined => rfl
  | null => rfl
  | bool b => rfl
  | num n => rfl
  | str s => rfl
  | arr xs => rfl

/-- A field step never changes the binding of a different response key. -/
theorem overlayFieldStep_other_key (context : CacheContext) (snapshot : GraphSnapshot)
    (value : JsonValue) (cid : NodeId) (path : List PathPart) (key : String)
    (node : ParsedQueryNode) (dyn : List NodeId) (k : String) (hk : k ≠ key) :
    utilGet (overlayFieldStep context snapshot value cid path key node dyn).1 k
      = utilGet value k := by
  rw [overlayFieldStep.eq_def]
  split
  rename_i selection children schemaName args hpc
  cases args with
  | none =>
    dsimp only
    exact utilGet_jsSetProp_ne value key k _ hk
  | some nodeArgs =>
    dsimp only
    cases hres : resolveParameterizedField context snapshot value cid path
        (effectiveFieldName key (.mk selection children schemaName (Option.some nodeArgs) hpc))
        nodeArgs with
    | none => simp only [hres]
    | some pair =>
      obtain ⟨childId, childSnapshot⟩ := pair
      simp only [hres]
      exact utilGet_jsSetProp_ne value key k _ hk

/-- A field step keeps an object value an object. -/
theorem overlayFieldStep_obj (context : CacheContext) (snapshot : GraphSnapshot)
    (fs : JsonObject) (cid : NodeId) (path : List PathPart) (key : String)
    (node : ParsedQueryNode) (dyn : List NodeId) :
    ∃ fs', (overlayFieldStep context snapshot (.obj fs) cid path key node dyn).1 = .obj fs' := by
  rw [overlayFieldStep.eq_def]
  split
  rename_i selection children schemaName args hpc
  cases args with
  | none => exact ⟨_, rfl⟩
  | some nodeArgs =>
    dsimp only
    cases hres : resolveParameterizedField context snapshot (.obj fs) cid path
        (effectiveFieldName key (.mk selection children schemaName (Option.some nodeArgs) hpc))
        nodeArgs with
    | none => simp only [hres]; exact ⟨fs, rfl⟩
    | some pair =>
      obtain ⟨childId, childSnapshot⟩ := pair
      simp only [hres]
      exact ⟨_, rfl⟩

/-- `Set.add` only grows the set. -/
theorem addNodeId_mono (ids : List NodeId) (id x : NodeId) (h : x ∈ ids) :
    x ∈ addNodeId ids id := by
  rw [addNodeId]
  split
  · exact h
  · exact List.mem_append_left _ h

/-- The id written by `Set.add` is in the set. -/
theorem addNodeId_self (ids : List NodeId) (id : NodeId) : id ∈ addNodeId ids id := by
  rw [addNodeId]
  split
  · assumption
  · exact List.mem_append_right _ (List.mem_singleton.2 rfl)

mutual

theorem overlayWalkNode_dyn_mono (context : CacheContext) (snapshot : GraphSnapshot)
    (value : JsonValue) (containerId : NodeId) (parsedMap : ParsedQuery)
    (path : List PathPart) (dyn : List NodeId) (x : NodeId) (h : x ∈ dyn) :
    x ∈ (overlayWalkNode context snapshot value containerId parsedMap path dyn).2 := by
  rw [overlayWalkNode]
  exact overlayFields_dyn_mono context snapshot value _ _ parsedMap dyn x h
  termination_by (sizeOf parsedMap, 2, 0)

theorem overlayFields_dyn_mono (context : CacheContext) (snapshot : GraphSnapshot)
    (value : JsonValue) (containerId : NodeId) (path : List PathPart)
    (entries : ParsedQuery) (dyn : List NodeId) (x : NodeId) (h : x ∈ dyn) :
    x ∈ (overlayFields context snapshot value containerId path entries dyn).2 := by
  rw [overlayFields.eq_def]
  split
  · exact h
  · rename_i key node tl
    exact overlayFields_dyn_mono context snapshot _ containerId path tl _ x
      (overlayFieldStep_dyn_mono context snapshot value containerId path key node dyn x h)
  termination_by (sizeOf entries, 1, 0)

theorem overlayFieldStep_dyn_mono (context : CacheContext) (snapshot : GraphSnapshot)
    (value : JsonValue) (containerId : NodeId) (path : List PathPart) (key : String)
    (node : ParsedQueryNode) (dyn : List NodeId) (x : NodeId) (h : x ∈ dyn) :
    x ∈ (overlayFieldStep context snapshot value containerId path key node dyn).2 := by
  rw [overlayFieldStep.eq_def]
  split
  rename_i selection children schemaName args hpc
  cases args with
  | none =>
    exact overlayDescend_dyn_mono context snapshot _ containerId children hpc _ dyn x h
  | some nodeArgs =>
    dsimp only
    cases hres : resolveParameterizedField context snapshot value containerId path
        (effectiveFieldName key (.mk selection children schemaName (Option.some nodeArgs) hpc))
        nodeArgs with
    | none => simp only [hres]; exact h
    | some pair =>
      obtain ⟨childId, childSnapshot⟩ := pair
      simp only [hres]
      exact overlayDescend_dyn_mono context snapshot _ childId children hpc _ _ x
        (addNodeId_mono dyn childId x h)
  termination_by (sizeOf node, 0, 0)

theorem overlayDescend_dyn_mono (context : CacheContext) (snapshot : GraphSnapshot)
    (child : JsonValue) (nextContainerId : NodeId) (children : OptParsedQuery)
    (hasParameterizedChildren : Bool) (nextPath : List PathPart) (dyn : List NodeId)
    (x : NodeId) (h : x ∈ dyn) :
    x ∈ (overlayDescend context snapshot child nextContainerId children
          hasParameterizedChildren nextPath dyn).2 := by
  rw [overlayDescend.eq_def]
  split
  · exact h
  · rename_i nextParsedQuery
    by_cases hh : hasParameterizedChildren = true
    · simp only [hh, if_true]
      split
      · exact h
      · exact overlayArray_dyn_mono context snapshot _ nextContainerId nextParsedQuery
          nextPath 0 dyn x h
      · exact overlayWalkNode_dyn_mono context snapshot _ nextContainerId nextParsedQuery
          nextPath dyn x h
    · simp only [hh, Bool.false_eq_true, if_false]
      exact h
  termination_by (sizeOf children, 0, 0)

theorem overlayArray_dyn_mono (context : CacheContext) (snapshot : GraphSnapshot)
    (xs : JsonList) (nextContainerId : NodeId) (nextParsedQuery : ParsedQuery)
    (nextPath : List PathPart) (i : Nat) (dyn : List NodeId) (x : NodeId) (h : x ∈ dyn) :
    x ∈ (overlayArray context snapshot xs nextContainerId nextParsedQuery nextPath i dyn).2 := by
  rw [overlayArray.eq_def]
  split
  · exact h
  · split
    · exact overlayArray_dyn_mono context snapshot _ nextContainerId nextParsedQuery
        nextPath (i + 1) dyn x h
    · exact overlayArray_dyn_mono context snapshot _ nextContainerId nextParsedQuery
        nextPath (i + 1) _ x
        (overlayWalkNode_dyn_mono context snapshot _ nextContainerId nextParsedQuery _ dyn x h)
  termination_by (sizeOf nextParsedQuery, 3, sizeOf xs)

end

/-- When the descend condition of the overlay fails, the child value and the
dynamic-id set pass through unchanged. -/
theorem overlayDescend_skip (context : CacheContext) (snapshot : GraphSnapshot)
    (child : JsonValue) (nextContainerId : NodeId) (children : OptParsedQuery)
    (hasParameterizedChildren : Bool) (nextPath : List PathPart) (dyn : List NodeId)
    (h : ¬(hasParameterizedChildren = true ∧ children ≠ OptParsedQuery.none ∧
        child ≠ JsonValue.null)) :
    overlayDescend context snapshot child nextContainerId children
      hasParameterizedChildren nextPath dyn = (child, dyn) := by
  rw [overlayDescend.eq_def]
  split
  · rfl
  · rename_i nextParsedQuery
    by_cases hh : hasParameterizedChildren = true
    · have hnull : child = JsonValue.null := by
        by_contra hc
        exact h ⟨hh, by simp, hc⟩
      subst hnull
      simp [hh]
    · simp [hh]

/-- The fold over the remaining fields never changes a key outside the map. -/
theorem overlayFields_other_keys (context : CacheContext) (snapshot : GraphSnapshot) :
    ∀ (pq : ParsedQuery) (value : JsonValue) (cid : NodeId) (path : List PathPart)
      (dyn : List NodeId) (k : String), k ∉ pqKeys pq →
      utilGet (overlayFields context snapshot value cid path pq dyn).1 k = utilGet value k
  | .nil, value, cid, path, dyn, k, hk => by rw [overlayFields]
  | .cons key node tl, value, cid, path, dyn, k, hk => by
    rw [overlayFields]
    have hk1 : k ≠ key := by
      intro h
      exact hk (h ▸ List.mem_cons_self _ _)
    have hk2 : k ∉ pqKeys tl := by
      intro h
      exact hk (List.mem_cons_of_mem _ h)
    rw [overlayFields_other_keys context snapshot tl _ cid path _ k hk2]
    exact overlayFieldStep_other_key context snapshot value cid path key node dyn k hk1

/-- A direct snapshot hit on the synthetic identity resolves the
parameterized field to exactly that identity and node. -/
theorem resolveParameterizedField_direct (context : CacheContext)
    (snapshot : GraphSnapshot) (value : JsonValue) (containerId : NodeId)
    (path : List PathPart) (fieldName : String) (nodeArgs : FieldArguments)
    (childSnapshot : NodeSnapshot)
    (h : snapshot.getNodeSnapshot
        (nodeIdForParameterizedValue containerId (path ++ [.str fieldName]) nodeArgs)
      = Option.some childSnapshot) :
    resolveParameterizedField context snapshot value containerId path fieldName nodeArgs
      = Option.some
          (nodeIdForParameterizedValue containerId (path ++ [.str fieldName]) nodeArgs,
            childSnapshot) := by
  rw [resolveParameterizedField]
  rw [h]

/-- C6 fold lemma: processing a level of fields writes a directly-resolved
parameterized field's stored data under its response key and records its
identity, provided the field does not descend further. -/
theorem overlayFields_param_hit (context : CacheContext) (snapshot : GraphSnapshot)
    (nodeArgs : FieldArguments) (childSnapshot : NodeSnapshot) :
    ∀ (pq : ParsedQuery) (fs : JsonObject) (cid : NodeId) (path : List PathPart)
      (dyn : List NodeId) (key : String) (node : ParsedQueryNode),
      (key, node) ∈ pqEntries pq → (pqKeys pq).Nodup →
      node.args = Option.some nodeArgs →
      snapshot.getNodeSnapshot
          (nodeIdForParameterizedValue cid (path ++ [.str (effectiveFieldName key node)]) nodeArgs)
        = Option.some childSnapshot →
      ¬(node.hasParameterizedChildren = true ∧ node.children ≠ OptParsedQuery.none ∧
          childSnapshot.data ≠ JsonValue.null) →
      utilGet (overlayFields context snapshot (.obj fs) cid path pq dyn).1 key
          = childSnapshot.data ∧
        nodeIdForParameterizedValue cid (path ++ [.str (effectiveFieldName key node)]) nodeArgs
          ∈ (overlayFields context snapshot (.obj fs) cid path pq dyn).2
  | .nil, fs, cid, path, dyn, key, node, hmem, hnodup, hargs, hdirect, hnod => by
    simp [pqEntries] at hmem
  | .cons k0 n0 tl, fs, cid, path, dyn, key, node, hmem, hnodup, hargs, hdirect, hnod => by
    rw [overlayFields]
    simp only [pqEntries, List.mem_cons] at hmem
    rcases hmem with heq | htl
    · have hkey : key = k0 := congrArg Prod.fst heq
      have hnode : node = n0 := congrArg Prod.snd heq
      subst hkey
      subst hnode
      rw [pqKeys] at hnodup
      have hknot : key ∉ pqKeys tl := (List.nodup_cons.1 hnodup).1
      cases node with
      | mk sel ch sn args hpc =>
        simp only [ParsedQueryNode.args] at hargs
        subst hargs
        simp only [ParsedQueryNode.hasParameterizedChildren, ParsedQueryNode.children] at hnod
        simp only [overlayFieldStep]
        rw [resolveParameterizedField_direct context snapshot _ cid path _ nodeArgs
          childSnapshot hdirect]
        dsimp only
        rw [overlayDescend_skip context snapshot _ _ ch hpc _ _ hnod]
        constructor
        · rw [overlayFields_other_keys context snapshot tl _ cid path _ key hknot]
          exact utilGet_jsSetProp_self fs key childSnapshot.data
        · exact overlayFields_dyn_mono context snapshot _ cid path tl _ _
            (addNodeId_self dyn _)
    · have hnodup' : (pqKeys tl).Nodup := by
        rw [pqKeys] at hnodup
        exact hnodup.of_cons
      obtain ⟨fs1, hfs1⟩ := overlayFieldStep_obj context snapshot fs cid path k0 n0 dyn
      rw [hfs1]
      exact overlayFields_param_hit context snapshot nodeArgs childSnapshot tl fs1 cid path
        _ key node htl hnodup' hargs hdirect hnod

/-- C6: a parameterized field whose synthetic identity — derived from the
effective container id, the path extended by the field name, and the
arguments — resolves directly to a stored snapshot node ends up in the
overlaid result carrying exactly that node's stored data under the field's
response key, and the resolved identity is recorded in `dynamicNodeIds`.
(Stated for fields that do not descend further; a field with parameterized
children below a non-null stored value receives a further-overlaid copy of
the same data.) -/
theorem overlay_resolved_parameterized_field (context : CacheContext)
    (snapshot : GraphSnapshot) (query : OperationInstance) (result : JsonValue)
    (dyn0 : List NodeId) (fs : JsonObject) (rootSnap : NodeSnapshot)
    (key : String) (node : ParsedQueryNode) (nodeArgs : FieldArguments)
    (childSnapshot : NodeSnapshot)
    (hroot : snapshot.getNodeSnapshot query.rootId = Option.some rootSnap)
    (hwrap : _wrapValue result context = .obj fs)
    (hreset : context.entityIdForValue (.obj fs) = Option.none)
    (hmem : (key, node) ∈ pqEntries query.parsedQuery)
    (hnodup : (pqKeys query.parsedQuery).Nodup)
    (hargs : node.args = Option.some nodeArgs)
    (hdirect : snapshot.getNodeSnapshot
        (nodeIdForParameterizedValue query.rootId [.str (effectiveFieldName key node)] nodeArgs)
      = Option.some childSnapshot)
    (hnod : ¬(node.hasParameterizedChildren = true ∧ node.children ≠ OptParsedQuery.none ∧
        childSnapshot.data ≠ JsonValue.null)) :
    utilGet (_walkAndOverlayDynamicValues query context snapshot result dyn0).1 key
        = childSnapshot.data ∧
      nodeIdForParameterizedValue query.rootId [.str (effectiveFieldName key node)] nodeArgs
        ∈ (_walkAndOverlayDynamicValues query context snapshot result dyn0).2 := by
  rw [_walkAndOverlayDynamicValues, hroot]
  dsimp only
  rw [hwrap, overlayWalkNode, hreset]
  exact overlayFields_param_hit context snapshot nodeArgs childSnapshot query.parsedQuery fs
    query.rootId [] dyn0 key node hmem hnodup hargs (by simpa using hdirect) hnod

/-- Witness for C6 at a concrete input: `{ pw(id: 1) }` against a snapshot
storing `"zap"` under the synthetic identity. -/
theorem overlay_resolved_parameterized_field_witness :
    snapPW.getNodeSnapshot opPW.rootId = Option.some { data := .obj .nil } ∧
      (utilGet (_walkAndOverlayDynamicValues opPW ctxC1 snapPW (.obj .nil) []).1 "pw"
          = JsonValue.str "zap" ∧
        nodeIdForParameterizedValue opPW.rootId
            [.str (effectiveFieldName "pw" pqPW)] [("id", "1")]
          ∈ (_walkAndOverlayDynamicValues opPW ctxC1 snapPW (.obj .nil) []).2) :=
  ⟨by decide,
    overlay_resolved_parameterized_field ctxC1 snapPW opPW (.obj .nil) [] .nil
      { data := .obj .nil } "pw" pqPW [("id", "1")] { data := .str "zap" }
      (by decide) rfl rfl (by decide) (by decide) rfl (by decide) (by decide)⟩

/-- An entry's key is among the map's keys. -/
theorem pqEntries_mem_keys :
    ∀ (pq : ParsedQuery) (key : String) (node : ParsedQueryNode),
      (key, node) ∈ pqEntries pq → key ∈ pqKeys pq
  | .nil, key, node, h => by simp [pqEntries] at h
  | .cons k n tl, key, node, h => by
    simp only [pqEntries, List.mem_cons] at h
    rw [pqKeys]
    rcases h with heq | htl
    · exact List.mem_cons.2 (Or.inl (congrArg Prod.fst heq))
    · exact List.mem_cons_of_mem _ (pqEntries_mem_keys tl key node htl)

/-- C7 fold lemma: a level of fields leaves the binding of an unresolvable
parameterized field untouched. -/
theorem overlayFields_param_unresolved (context : CacheContext) (snapshot : GraphSnapshot)
    (nodeArgs : FieldArguments) :
    ∀ (pq : ParsedQuery) (fs : JsonObject) (cid : NodeId) (path : List PathPart)
      (dyn : List NodeId) (key : String) (node : ParsedQueryNode),
      (key, node) ∈ pqEntries pq → (pqKeys pq).Nodup →
      node.args = Option.some nodeArgs →
      (∀ v, resolveParameterizedField context snapshot v cid path
          (effectiveFieldName key node) nodeArgs = Option.none) →
      utilGet (overlayFields context snapshot (.obj fs) cid path pq dyn).1 key
        = utilGet (.obj fs) key
  | .nil, fs, cid, path, dyn, key, node, hmem, hnodup, hargs, hres => by
    simp [pqEntries] at hmem
  | .cons k0 n0 tl, fs, cid, path, dyn, key, node, hmem, hnodup, hargs, hres => by
    rw [overlayFields]
    simp only [pqEntries, List.mem_cons] at hmem
    rcases hmem with heq | htl
    · have hkey : key = k0 := congrArg Prod.fst heq
      have hnode : node = n0 := congrArg Prod.snd heq
      subst hkey
      subst hnode
      rw [pqKeys] at hnodup
      have hknot : key ∉ pqKeys tl := (List.nodup_cons.1 hnodup).1
      cases node with
      | mk sel ch sn args hpc =>
        simp only [ParsedQueryNode.args] at hargs
        subst hargs
        simp only [overlayFieldStep]
        rw [hres (.obj fs)]
        dsimp only
        exact overlayFields_other_keys context snapshot tl _ cid path _ key hknot
    · have hkmem : key ∈ pqKeys tl := pqEntries_mem_keys tl key node htl
      have hk0 : key ≠ k0 := by
        intro h
        rw [pqKeys] at hnodup
        exact (List.nodup_cons.1 hnodup).1 (h ▸ hkmem)
      have hnodup' : (pqKeys tl).Nodup := by
        rw [pqKeys] at hnodup
        exact hnodup.of_cons
      obtain ⟨fs1, hfs1⟩ := overlayFieldStep_obj context snapshot fs cid path k0 n0 dyn
      rw [hfs1]
      rw [overlayFields_param_unresolved context snapshot nodeArgs tl fs1 cid path _ key node
        htl hnodup' hargs hres]
      rw [← hfs1]
      exact overlayFieldStep_other_key context snapshot (.obj fs) cid path k0 n0 dyn key hk0

/-- C7: a parameterized field that fails to resolve — the synthetic identity
has no snapshot and any redirect also fails, for every intermediate value the
walk may present — is left entirely untouched in the overlaid result: the
binding of its response key is exactly what the wrapped input had, no descent
happens on the branch, and no error is raised (the overlay is a total
function; the absence is left as data for the completeness visitor). -/
theorem overlay_unresolved_parameterized_field (context : CacheContext)
    (snapshot : GraphSnapshot) (query : OperationInstance) (result : JsonValue)
    (dyn0 : List NodeId) (fs : JsonObject) (rootSnap : NodeSnapshot)
    (key : String) (node : ParsedQueryNode) (nodeArgs : FieldArguments)
    (hroot : snapshot.getNodeSnapshot query.rootId = Option.some rootSnap)
    (hwrap : _wrapValue result context = .obj fs)
    (hreset : context.entityIdForValue (.obj fs) = Option.none)
    (hmem : (key, node) ∈ pqEntries query.parsedQuery)
    (hnodup : (pqKeys query.parsedQuery).Nodup)
    (hargs : node.args = Option.some nodeArgs)
    (hres : ∀ v, resolveParameterizedField context snapshot v query.rootId []
        (effectiveFieldName key node) nodeArgs = Option.none) :
    utilGet (_walkAndOverlayDynamicValues query context snapshot result dyn0).1 key
      = utilGet (.obj fs) key := by
  rw [_walkAndOverlayDynamicValues, hroot]
  dsimp only
  rw [hwrap, overlayWalkNode, hreset]
  exact overlayFields_param_unresolved context snapshot nodeArgs query.parsedQuery fs
    query.rootId [] dyn0 key node hmem hnodup hargs hres

/-- Helper for the C7 witness: with an empty redirect table and no stored
synthetic node, resolution fails for every value. -/
theorem resolvePWmiss (v : JsonValue) :
    resolveParameterizedField ctxC1 snapPWmiss v QueryRoot []
      (effectiveFieldName "pw" pqPW) [("id", "1")] = Option.none := by
  rw [resolveParameterizedField]
  rw [show snapPWmiss.getNodeSnapshot (nodeIdForParameterizedValue QueryRoot
    ([] ++ [.str (effectiveFieldName "pw" pqPW)]) [("id", "1")]) = Option.none from by decide]
  dsimp only
  split <;> rfl

/-- Witness for C7 at a concrete input: `{ pw(id: 1) }` against a snapshot
without the synthetic node; the overlaid result's `pw` binding is untouched
(absent, hence `undefined`). -/
theorem overlay_unresolved_parameterized_field_witness :
    snapPWmiss.getNodeSnapshot opPW.rootId = Option.some { data := .obj .nil } ∧
      utilGet (_walkAndOverlayDynamicValues opPW ctxC1 snapPWmiss (.obj .nil) []).1 "pw"
        = utilGet (JsonValue.obj .nil) "pw" :=
  ⟨by decide,
    overlay_unresolved_parameterized_field ctxC1 snapPWmiss opPW (.obj .nil) [] .nil
      { data := .obj .nil } "pw" pqPW [("id", "1")]
      (by decide) rfl rfl (by decide) (by decide) rfl resolvePWmiss⟩

/-- The field loop only appends selections drawn from the handed field list. -/
theorem visitMissingFieldsLoop_missing_sub (v : JsonValue) :
    ∀ (fields : List (String × SelectionNode)) (s : VisitState) (x : SelectionNode),
      x ∈ (visitMissingFieldsLoop v fields s).missingFields →
      x ∈ s.missingFields ∨ x ∈ fields.map Prod.snd
  | [], s, x, h => Or.inl h
  | (field, fieldNode) :: rest, s, x, h => by
    rw [visitMissingFieldsLoop] at h
    by_cases hp : jsHasProp v field = true
    · rw [if_pos hp] at h
      rcases visitMissingFieldsLoop_missing_sub v rest s x h with h1 | h1
      · exact Or.inl h1
      · exact Or.inr (List.mem_cons_of_mem _ h1)
    · rw [if_neg hp] at h
      rcases List.mem_append.1 h with h1 | h1
      · exact Or.inl h1
      · exact Or.inr (by simpa using Or.inl (List.mem_singleton.1 h1))

/-- The completeness visitor only appends selections drawn from the field
list or the enclosing selection. -/
theorem visitFn_missing_sub (context : CacheContext) (v : JsonValue)
    (fields : List (String × SelectionNode)) (psel : Option SelectionNode)
    (s : VisitState) (x : SelectionNode)
    (h : x ∈ ((visitFn context v fields psel s).2).missingFields) :
    x ∈ s.missingFields ∨ x ∈ fields.map Prod.snd ∨ x ∈ psel.toList := by
  cases v with
  | undefined =>
    simp only [visitFn] at h
    rcases List.mem_append.1 h with h1 | h1
    · exact Or.inl h1
    · exact Or.inr (Or.inr h1)
  | obj fs =>
    rw [visitFn] at h
    case x => intro heq; cases heq
    simp only [isObject, Bool.not_true, Bool.false_eq_true, if_false] at h
    cases hids : s.nodeIds with
    | none =>
      rw [hids] at h
      rcases visitMissingFieldsLoop_missing_sub (.obj fs) fields _ x h with h1 | h1
      · exact Or.inl h1
      · exact Or.inr (Or.inl h1)
    | some ids =>
      rw [hids] at h
      cases hent : context.entityIdForValue (.obj fs) with
      | none =>
        rw [hent] at h
        rcases visitMissingFieldsLoop_missing_sub (.obj fs) fields _ x h with h1 | h1
        · exact Or.inl h1
        · exact Or.inr (Or.inl h1)
      | some nodeId =>
        rw [hent] at h
        rcases visitMissingFieldsLoop_missing_sub (.obj fs) fields _ x h with h1 | h1
        · exact Or.inl h1
        · exact Or.inr (Or.inl h1)
  | arr xs =>
    rw [visitFn] at h
    case x => intro heq; cases heq
    simp only [isObject, Bool.not_true, Bool.false_eq_true, if_false] at h
    cases hids : s.nodeIds with
    | none =>
      rw [hids] at h
      rcases visitMissingFieldsLoop_missing_sub (.arr xs) fields _ x h with h1 | h1
      · exact Or.inl h1
      · exact Or.inr (Or.inl h1)
    | some ids =>
      rw [hids] at h
      cases hent : context.entityIdForValue (.arr xs) with
      | none =>
        rw [hent] at h
        rcases visitMissingFieldsLoop_missing_sub (.arr xs) fields _ x h with h1 | h1
        · exact Or.inl h1
        · exact Or.inr (Or.inl h1)
      | some nodeId =>
        rw [hent] at h
        rcases visitMissingFieldsLoop_missing_sub (.arr xs) fields _ x h with h1 | h1
        · exact Or.inl h1
        · exact Or.inr (Or.inl h1)
  | null => simp_all [visitFn, isObject]
  | bool b => simp_all [visitFn, isObject]
  | num n => simp_all [visitFn, isObject]
  | str t => simp_all [visitFn, isObject]

/-- The visitor fields of a level are among the parsed tree's selections. -/
theorem collectFields_sels :
    ∀ (p : ParsedQuery) (x : SelectionNode),
      x ∈ (collectFields p).map Prod.snd → x ∈ selsOfPQ p
  | .nil, x, h => by simp [collectFields] at h
  | .cons key (.mk selection children sn args hpc) tl, x, h => by
    simp only [collectFields, List.map_cons, List.mem_cons, ParsedQueryNode.selection] at h
    simp only [selsOfPQ, selsOfNode, List.mem_append, List.mem_cons]
    rcases h with h1 | h1
    · exact Or.inl (Or.inl h1)
    · exact Or.inr (collectFields_sels tl x h1)

mutual

theorem walkStep_missing_sub (context : CacheContext) (p : ParsedQuery)
    (psel : Option SelectionNode) (v : JsonValue) (s : VisitState) (x : SelectionNode)
    (h : x ∈ (walkStep (visitFn context) p psel v s).missingFields) :
    x ∈ s.missingFields ∨ x ∈ selsOfPQ p ∨ x ∈ psel.toList := by
  rw [walkStep.eq_def] at h
  split at h
  · exact Or.inl h
  · next xs => exact walkArray_missing_sub context p psel xs s x h
  · next v' hnull harr =>
    by_cases hfe : (collectFields p).isEmpty = true
    · simp only [hfe, if_true] at h
      exact Or.inl h
    · simp only [hfe, Bool.false_eq_true, if_false] at h
      by_cases hr : (visitFn context v (collectFields p) psel s).1 = true
      · simp only [hr, if_true] at h
        rcases visitFn_missing_sub context v (collectFields p) psel s x h with h1 | h1 | h1
        · exact Or.inl h1
        · exact Or.inr (Or.inl (collectFields_sels p x h1))
        · exact Or.inr (Or.inr h1)
      · simp only [hr, Bool.false_eq_true, if_false] at h
        rcases walkChildren_missing_sub context p v _ x h with h1 | h1
        · rcases visitFn_missing_sub context v (collectFields p) psel s x h1 with h2 | h2 | h2
          · exact Or.inl h2
          · exact Or.inr (Or.inl (collectFields_sels p x h2))
          · exact Or.inr (Or.inr h2)
        · exact Or.inr (Or.inl h1)
  termination_by (sizeOf p, sizeOf v + 2)

theorem walkArray_missing_sub (context : CacheContext) (p : ParsedQuery)
    (psel : Option SelectionNode) (xs : JsonList) (s : VisitState) (x : SelectionNode)
    (h : x ∈ (walkArray (visitFn context) p psel xs s).missingFields) :
    x ∈ s.missingFields ∨ x ∈ selsOfPQ p ∨ x ∈ psel.toList := by
  rw [walkArray.eq_def] at h
  split at h
  · exact Or.inl h
  · next y tl =>
    rcases walkArray_missing_sub context p psel tl _ x h with h1 | h1 | h1
    · exact walkStep_missing_sub context p psel y s x h1
    · exact Or.inr (Or.inl h1)
    · exact Or.inr (Or.inr h1)
  termination_by (sizeOf p, sizeOf xs + 2)

theorem walkChildren_missing_sub (context : CacheContext) (entries : ParsedQuery)
    (parent : JsonValue) (s : VisitState) (x : SelectionNode)
    (h : x ∈ (walkChildren (visitFn context) entries parent s).missingFields) :
    x ∈ s.missingFields ∨ x ∈ selsOfPQ entries := by
  rw [walkChildren.eq_def] at h
  split at h
  · exact Or.inl h
  · split at h
    · next nextParsedQuery _ =>
      rcases walkStep_missing_sub context _ _ _ _ x h with h1 | h1 | h1
      · rcases walkChildren_missing_sub context _ parent s x h1 with h2 | h2
        · exact Or.inl h2
        · refine Or.inr ?_
          simp only [selsOfPQ, List.mem_append]
          exact Or.inr h2
      · refine Or.inr ?_
        simp only [selsOfPQ, selsOfNode, selsOfOpt, List.mem_append, List.mem_cons]
        exact Or.inl (Or.inr h1)
      · refine Or.inr ?_
        simp only [Option.toList_some, List.mem_singleton] at h1
        simp only [selsOfPQ, selsOfNode, List.mem_append, List.mem_cons]
        exact Or.inl (Or.inl h1)
    · rcases walkChildren_missing_sub context _ parent s x h with h2 | h2
      · exact Or.inl h2
      · refine Or.inr ?_
        simp only [selsOfPQ, List.mem_append]
        exact Or.inr h2
  termination_by (sizeOf entries, 0)

end

/-- The selections referenced by a compiled chain are exactly the chain's
selection nodes. -/
theorem selsOfPQ_chainParsed : ∀ (c : List String), selsOfPQ (chainParsed c) = chainSels c
  | [] => rfl
  | f :: rest => by
    cases rest with
    | nil => rfl
    | cons g gs =>
      simp only [chainParsed, selsOfPQ, selsOfNode, selsOfOpt, chainSels, List.append_nil,
        selsOfPQ_chainParsed (g :: gs)]

/-- Rebuilding a chain's selection set keeps the whole chain when some chain
selection is missing, and nothing when none is. -/
theorem findMissing_chain (vf : JsonVariables) (fm : List (String × Definition)) :
    ∀ (c : List String) (fields : List SelectionNode),
      ((∃ x ∈ chainSels c, x ∈ fields) →
        findMissingSelectionSets (chainSelectionSet c) vf fm fields = chainSelectionSet c) ∧
      ((∀ x ∈ chainSels c, x ∉ fields) →
        findMissingSelectionSets (chainSelectionSet c) vf fm fields = .mk .nil)
  | [], fields => by
    constructor
    · rintro ⟨x, hx, _⟩
      simp [chainSels] at hx
    · intro hnone
      rfl
  | [f], fields => by
    have he : findMissingSelectionSets (chainSelectionSet [f]) vf fm fields
        = .mk (if SelectionNode.field f Option.none [] OptSelectionSet.none ∈ fields
            then .cons (.field f Option.none [] .none) .nil else .nil) := rfl
    constructor
    · rintro ⟨x, hx, hmem⟩
      simp only [chainSels, chainField, List.mem_singleton] at hx
      subst hx
      rw [he, if_pos hmem]
      rfl
    · intro hnone
      have hn : SelectionNode.field f Option.none [] OptSelectionSet.none ∉ fields :=
        hnone _ (by simp [chainSels, chainField])
      rw [he, if_neg hn]
  | f :: g :: gs, fields => by
    have ih := findMissing_chain vf fm (g :: gs) fields
    have he : findMissingSelectionSets (chainSelectionSet (f :: g :: gs)) vf fm fields
        = .mk (if SelectionNode.field f Option.none []
              (.some (chainSelectionSet (g :: gs))) ∈ fields
            then .cons (.field f Option.none [] (.some (chainSelectionSet (g :: gs)))) .nil
            else
              if (findMissingSelectionSets (chainSelectionSet (g :: gs)) vf fm fields).selections
                  ≠ SelectionList.nil then
                .cons (.field f Option.none []
                  (.some (findMissingSelectionSets (chainSelectionSet (g :: gs)) vf fm fields)))
                  .nil
              else .nil) := rfl
    constructor
    · rintro ⟨x, hx, hmem⟩
      by_cases hhead : SelectionNode.field f Option.none []
          (.some (chainSelectionSet (g :: gs))) ∈ fields
      · rw [he, if_pos hhead]
        rfl
      · rw [chainSels] at hx
        rcases List.mem_cons.mp hx with hx | hx
        · subst hx
          exact absurd hmem hhead
        · have hrec := ih.1 ⟨x, hx, hmem⟩
          have hne : (chainSelectionSet (g :: gs)).selections ≠ SelectionList.nil := by
            rw [chainSelectionSet_cons]
            intro h
            exact SelectionList.noConfusion h
          rw [he, if_neg hhead, hrec, if_pos hne]
          rfl
    · intro hnone
      have hhead : SelectionNode.field f Option.none []
          (.some (chainSelectionSet (g :: gs))) ∉ fields :=
        hnone _ (List.mem_cons_self _ _)
      have hrec := ih.2 (fun x hx => hnone x (List.mem_cons_of_mem _ hx))
      rw [he, if_neg hhead, hrec, if_neg (by simp [SelectionSetNode.selections])]

/-- Assignment makes the assigned key present. -/
theorem hasProp_setProp_self :
    ∀ (fs : JsonObject) (key : String) (v : JsonValue),
      (fs.setProp key v).hasProp key = true
  | .nil, key, v => by simp [JsonObject.setProp, JsonObject.hasProp]
  | .cons k old tl, key, v => by
    by_cases hk : k = key
    · subst hk
      simp [JsonObject.setProp, JsonObject.hasProp]
    · simp only [JsonObject.setProp, if_neg hk, JsonObject.hasProp, hk,
        decide_eq_true_eq, Bool.false_or, decide_eq_false_iff_not, not_false_iff]
      simp only [hasProp_setProp_self tl key v, Bool.or_true]

/-- The empty chain accepts every array element-wise. -/
theorem chainOKList_nil : ∀ (xs : JsonList), chainOKList [] xs = true
  | .nil => by rw [chainOKList]
  | .cons x tl => by
    rw [chainOKList, chainOK]
    simp [chainOKList_nil tl]

/-- The chain acceptance of an array is its element-wise acceptance. -/
theorem chainOK_arr (c : List String) (xs : JsonList) :
    chainOK c (.arr xs) = chainOKList c xs := by
  cases c with
  | nil =>
    rw [chainOK, chainOKList_nil]
  | cons f rest => rw [chainOK]

/-- A freshly built chain value satisfies the whole chain. -/
theorem chainOK_fresh : ∀ (c : List String), chainOK c (freshValue (chainSelectionSet c)) = true
  | [] => by rw [chainOK]
  | [f] => by
    rw [show chainSelectionSet [f]
      = .mk (.cons (.field f Option.none [] .none) .nil) from rfl]
    rw [freshValue, freshFields, freshFields]
    rw [chainOK]
    simp [JsonObject.hasProp]
  | f :: g :: gs => by
    rw [show chainSelectionSet (f :: g :: gs)
      = .mk (.cons (.field f Option.none [] (.some (chainSelectionSet (g :: gs)))) .nil)
      from rfl]
    rw [freshValue, freshFields, freshFields]
    rw [chainOK]
    simp only [JsonObject.hasProp, JsonObject.lookupProp, if_pos rfl, Option.getD_some,
      if_true, chainOK_fresh (g :: gs)]
    simp

/- Extending a value along a chain's selection set makes the chain fully
present: the extended value satisfies `chainOK`. -/
mutual

theorem chainOK_extend : ∀ (c : List String) (old : JsonValue),
    chainOK c (extendValue old (chainSelectionSet c)) = true
  | [], old => by rw [chainOK]
  | f :: rest, .null => by
    rw [extendValue, chainOK]
  | f :: rest, .undefined => by
    rw [show extendValue .undefined (chainSelectionSet (f :: rest))
      = freshValue (chainSelectionSet (f :: rest)) from by
        rw [extendValue]
        case x_1 => intro heq; cases heq
        case x_2 => intro xs heq; cases heq
        case x_3 => intro fs heq; cases heq]
    exact chainOK_fresh (f :: rest)
  | f :: rest, .bool b => by
    rw [show extendValue (.bool b) (chainSelectionSet (f :: rest))
      = freshValue (chainSelectionSet (f :: rest)) from by
        rw [extendValue]
        case x_1 => intro heq; cases heq
        case x_2 => intro xs heq; cases heq
        case x_3 => intro fs heq; cases heq]
    exact chainOK_fresh (f :: rest)
  | f :: rest, .num n => by
    rw [show extendValue (.num n) (chainSelectionSet (f :: rest))
      = freshValue (chainSelectionSet (f :: rest)) from by
        rw [extendValue]
        case x_1 => intro heq; cases heq
        case x_2 => intro xs heq; cases heq
        case x_3 => intro fs heq; cases heq]
    exact chainOK_fresh (f :: rest)
  | f :: rest, .str t => by
    rw [show extendValue (.str t) (chainSelectionSet (f :: rest))
      = freshValue (chainSelectionSet (f :: rest)) from by
        rw [extendValue]
        case x_1 => intro heq; cases heq
        case x_2 => intro xs heq; cases heq
        case x_3 => intro fs heq; cases heq]
    exact chainOK_fresh (f :: rest)
  | f :: rest, .arr xs => by
    rw [extendValue, chainOK_arr]
    exact chainOKList_extend (f :: rest) xs
  | [f], .obj fs => by
    rw [show chainSelectionSet [f]
      = .mk (.cons (.field f Option.none [] .none) .nil) from rfl]
    rw [extendValue, extendFields, extendFields]
    by_cases hp : fs.hasProp f = true
    · rw [if_pos hp, chainOK]
      simp [hp]
    · rw [if_neg hp, chainOK]
      simp [JsonObject.hasProp]
  | f :: g :: gs, .obj fs => by
    rw [show chainSelectionSet (f :: g :: gs)
      = .mk (.cons (.field f Option.none [] (.some (chainSelectionSet (g :: gs)))) .nil)
      from rfl]
    rw [extendValue, extendFields, extendFields]
    rw [chainOK]
    rw [hasProp_setProp_self, lookupProp_setProp_self]
    simp only [Option.getD_some, Bool.true_and]
    exact chainOK_extend (g :: gs) ((fs.lookupProp f).getD .undefined)
  termination_by c old => (c.length, sizeOf old + 1)

theorem chainOKList_extend : ∀ (c : List String) (xs : JsonList),
    chainOKList c (extendArr xs (chainSelectionSet c)) = true
  | c, .nil => by rw [extendArr, chainOKList]
  | c, .cons x tl => by
    rw [extendArr, chainOKList]
    rw [chainOK_extend c x, chainOKList_extend c tl]
    rfl
  termination_by c xs => (c.length, sizeOf xs + 1)

end

/-- Chain acceptance of `null`. -/
theorem chainOK_null (f : String) (rest : List String) :
    chainOK (f :: rest) .null = true := by
  rw [chainOK.eq_def]

/-- Chain acceptance of `undefined`. -/
theorem chainOK_undefined (f : String) (rest : List String) :
    chainOK (f :: rest) .undefined = false := by
  rw [chainOK.eq_def]

/-- Chain acceptance of a boolean. -/
theorem chainOK_bool (f : String) (rest : List String) (b : Bool) :
    chainOK (f :: rest) (.bool b) = rest.isEmpty := by
  rw [chainOK.eq_def]

/-- Chain acceptance of a number. -/
theorem chainOK_num (f : String) (rest : List String) (n : Int) :
    chainOK (f :: rest) (.num n) = rest.isEmpty := by
  rw [chainOK.eq_def]

/-- Chain acceptance of a string. -/
theorem chainOK_str (f : String) (rest : List String) (t : String) :
    chainOK (f :: rest) (.str t) = rest.isEmpty := by
  rw [chainOK.eq_def]

/-- Chain acceptance of an object at the last level. -/
theorem chainOK_obj_nil (f : String) (fs : JsonObject) :
    chainOK [f] (.obj fs) = fs.hasProp f := by
  rw [chainOK.eq_def]
  simp

/-- Chain acceptance of an object at an inner level. -/
theorem chainOK_obj_cons (f g : String) (gs : List String) (fs : JsonObject) :
    chainOK (f :: g :: gs) (.obj fs)
      = (fs.hasProp f && chainOK (g :: gs) ((fs.lookupProp f).getD .undefined)) := by
  rw [chainOK.eq_def]

/-- A one-field level whose node has compiled children walks exactly that
child under the field's value. -/
theorem walkChildren_single_child {σ : Type} (visitor : OperationVisitor σ)
    (key : String) (sel : SelectionNode) (child : ParsedQuery) (sn : Option String)
    (args : Option FieldArguments) (hpc : Bool) (parent : JsonValue) (s : σ) :
    walkChildren visitor (.cons key (.mk sel (.some child) sn args hpc) .nil) parent s
      = walkStep visitor child (Option.some sel) (utilGet parent key) s := by
  rw [walkChildren, walkChildren]

/-- The visitor fields of a chain level. -/
theorem collectFields_chainParsed (f : String) (rest : List String) :
    collectFields (chainParsed (f :: rest)) = [(f, chainField f rest)] := by
  cases rest <;> rfl

/- Walking a chain query computes exactly the chain-acceptance predicate:
for a context that resolves no entity ids, the completeness flag after the
walk is the incoming flag conjoined with `chainOK`. -/
mutual

theorem walkStep_chain_complete (context : CacheContext)
    (hctx : ∀ w, context.entityIdForValue w = Option.none) :
    ∀ (c : List String) (psel : Option SelectionNode) (v : JsonValue) (s : VisitState),
      (walkStep (visitFn context) (chainParsed c) psel v s).complete
        = (s.complete && chainOK c v)
  | [], psel, v, s => by
    rw [show chainOK [] v = true from by rw [chainOK], Bool.and_true]
    rw [walkStep.eq_def]
    split
    · rfl
    · next xs =>
      rw [walkArray_chain_complete context hctx [] psel xs s, chainOKList_nil,
        Bool.and_true]
    · simp [chainParsed, collectFields]
  | f :: rest, psel, v, s => by
    cases v with
    | null =>
      rw [walkStep_null_eq, chainOK_null, Bool.and_true]
    | arr xs =>
      rw [walkStep]
      rw [walkArray_chain_complete context hctx (f :: rest) psel xs s, chainOK_arr]
    | undefined =>
      rw [walkStep]
      case x_1 => intro heq; cases heq
      case x_2 => intro xs heq; cases heq
      rw [collectFields_chainParsed]
      simp [visitFn, chainOK]
    | bool b =>
      rw [walkStep]
      case x_1 => intro heq; cases heq
      case x_2 => intro xs heq; cases heq
      rw [collectFields_chainParsed]
      simp only [List.isEmpty_cons, Bool.false_eq_true, if_false,
        show visitFn context (.bool b) [(f, chainField f rest)] psel s = (false, s) from by
          simp [visitFn, isObject]]
      cases rest with
      | nil =>
        rw [walkChildren_allLeaf _ _ _ _ (by rfl), chainOK_bool]
        simp
      | cons g gs =>
        rw [show chainParsed (f :: g :: gs) = ParsedQuery.cons f
            (.mk (chainField f (g :: gs)) (.some (chainParsed (g :: gs)))
              Option.none Option.none false) .nil from rfl]
        rw [walkChildren_single_child]
        rw [show utilGet (.bool b) f = .undefined from rfl]
        rw [walkStep_chain_complete context hctx (g :: gs) _ .undefined s]
        rw [chainOK_undefined, chainOK_bool]
        simp
    | num n =>
      rw [walkStep]
      case x_1 => intro heq; cases heq
      case x_2 => intro xs heq; cases heq
      rw [collectFields_chainParsed]
      simp only [List.isEmpty_cons, Bool.false_eq_true, if_false,
        show visitFn context (.num n) [(f, chainField f rest)] psel s = (false, s) from by
          simp [visitFn, isObject]]
      cases rest with
      | nil =>
        rw [walkChildren_allLeaf _ _ _ _ (by rfl), chainOK_num]
        simp
      | cons g gs =>
        rw [show chainParsed (f :: g :: gs) = ParsedQuery.cons f
            (.mk (chainField f (g :: gs)) (.some (chainParsed (g :: gs)))
              Option.none Option.none false) .nil from rfl]
        rw [walkChildren_single_child]
        rw [show utilGet (.num n) f = .undefined from rfl]
        rw [walkStep_chain_complete context hctx (g :: gs) _ .undefined s]
        rw [chainOK_undefined, chainOK_num]
        simp
    | str t =>
      rw [walkStep]
      case x_1 => intro heq; cases heq
      case x_2 => intro xs heq; cases heq
      rw [collectFields_chainParsed]
      simp only [List.isEmpty_cons, Bool.false_eq_true, if_false,
        show visitFn context (.str t) [(f, chainField f rest)] psel s = (false, s) from by
          simp [visitFn, isObject]]
      cases rest with
      | nil =>
        rw [walkChildren_allLeaf _ _ _ _ (by rfl), chainOK_str]
        simp
      | cons g gs =>
        rw [show chainParsed (f :: g :: gs) = ParsedQuery.cons f
            (.mk (chainField f (g :: gs)) (.some (chainParsed (g :: gs)))
              Option.none Option.none false) .nil from rfl]
        rw [walkChildren_single_child]
        rw [show utilGet (.str t) f = .undefined from rfl]
        rw [walkStep_chain_complete context hctx (g :: gs) _ .undefined s]
        rw [chainOK_undefined, chainOK_str]
        simp
    | obj fs =>
      rw [walkStep]
      case x_1 => intro heq; cases heq
      case x_2 => intro xs heq; cases heq
      rw [collectFields_chainParsed]
      have hvf : visitFn context (.obj fs) [(f, chainField f rest)] psel s
          = (false, visitMissingFieldsLoop (.obj fs) [(f, chainField f rest)] s) := by
        rw [visitFn]
        case x => intro heq; cases heq
        cases hids : s.nodeIds <;> simp [isObject, hctx]
      simp only [List.isEmpty_cons, Bool.false_eq_true, if_false, hvf]
      by_cases hp : jsHasProp (.obj fs) f = true
      · rw [show visitMissingFieldsLoop (.obj fs) [(f, chainField f rest)] s = s from by
          rw [visitMissingFieldsLoop, if_pos hp, visitMissingFieldsLoop]]
        cases rest with
        | nil =>
          rw [walkChildren_allLeaf _ _ _ _ (by rfl), chainOK_obj_nil]
          simp only [jsHasProp] at hp
          simp [hp]
        | cons g gs =>
          rw [show chainParsed (f :: g :: gs) = ParsedQuery.cons f
              (.mk (chainField f (g :: gs)) (.some (chainParsed (g :: gs)))
                Option.none Option.none false) .nil from rfl]
          rw [walkChildren_single_child]
          rw [show utilGet (.obj fs) f = (fs.lookupProp f).getD .undefined from rfl]
          rw [walkStep_chain_complete context hctx (g :: gs) _ _ s]
          rw [chainOK_obj_cons]
          simp only [jsHasProp] at hp
          simp [hp]
      · rw [show visitMissingFieldsLoop (.obj fs) [(f, chainField f rest)] s = { s with complete := false, missingFields := s.missingFields ++ [chainField f rest] } from by rw [visitMissingFieldsLoop, if_neg hp]]
        have hpf : fs.hasProp f = false := by
          simpa [jsHasProp] using hp
        cases rest with
        | nil =>
          rw [walkChildren_allLeaf _ _ _ _ (by rfl), chainOK_obj_nil]
          simp [hpf]
        | cons g gs =>
          rw [show chainParsed (f :: g :: gs) = ParsedQuery.cons f
              (.mk (chainField f (g :: gs)) (.some (chainParsed (g :: gs)))
                Option.none Option.none false) .nil from rfl]
          rw [walkChildren_single_child]
          rw [walkStep_chain_complete context hctx (g :: gs) _ _ { s with complete := false, missingFields := s.missingFields ++ [chainField f (g :: gs)] }]
          rw [chainOK_obj_cons]
          simp [hpf]
  termination_by c _ v _ => (c.length, sizeOf v + 2)

theorem walkArray_chain_complete (context : CacheContext)
    (hctx : ∀ w, context.entityIdForValue w = Option.none) :
    ∀ (c : List String) (psel : Option SelectionNode) (xs : JsonList) (s : VisitState),
      (walkArray (visitFn context) (chainParsed c) psel xs s).complete
        = (s.complete && chainOKList c xs)
  | c, psel, .nil, s => by
    rw [walkArray, show chainOKList c .nil = true from by rw [chainOKList], Bool.and_true]
  | c, psel, .cons x tl, s => by
    rw [walkArray]
    rw [walkArray_chain_complete context hctx c psel tl _]
    rw [walkStep_chain_complete context hctx c psel x s]
    rw [show chainOKList c (.cons x tl) = (chainOK c x && chainOKList c tl) from by
      rw [chainOKList]]
    rw [Bool.and_assoc]
  termination_by c _ xs _ => (c.length, sizeOf xs + 2)

end

/-- A fresh chain read evaluates to the partition stage applied to the
completeness visitor's outcome on the stored root value. -/
theorem read_chain_eval (c : List String) (v : JsonValue) :
    (read (chainCtx c) (chainRaw c) (chainSnap v) false).1
      = readPartition (chainRaw c)
          { result := v,
            complete := Option.some (walkStep (visitFn (chainCtx c)) (chainParsed c)
              Option.none v
              { complete := true, missingFields := [], nodeIds := Option.none }).complete,
            entityIds := (walkStep (visitFn (chainCtx c)) (chainParsed c)
              Option.none v
              { complete := true, missingFields := [], nodeIds := Option.none }).nodeIds,
            dynamicNodeIds := Option.none,
            partitionedQuery := Option.none }
          (walkStep (visitFn (chainCtx c)) (chainParsed c) Option.none v
            { complete := true, missingFields := [], nodeIds := Option.none }).missingFields :=
  rfl

/-- A fresh chain read reports exactly the chain acceptance of the stored
root value as its completeness flag. -/
theorem read_chain_complete (c : List String) (v : JsonValue) :
    (read (chainCtx c) (chainRaw c) (chainSnap v) false).1.complete
      = Option.some (chainOK c v) := by
  rw [read_chain_eval]
  rw [(readPartition_preserves _ _ _).1]
  rw [walkStep_chain_complete (chainCtx c) (fun _ => rfl) c Option.none v
    { complete := true, missingFields := [], nodeIds := Option.none }]
  rw [Bool.true_and]

/-- The partitioned query of a fresh chain read is always the full chain
document: when something is missing, each missing selection is one of the
chain's own selections, so the rebuilt selection set is the whole chain. -/
theorem chain_partition_full (c : List String) (v : JsonValue) :
    (read (chainCtx c) (chainRaw c) (chainSnap v) false).1.partitionedQuery
      = Option.some (chainDoc c) := by
  rw [read_chain_eval]
  rw [readPartition]
  split
  · rfl
  · next hcond =>
    push_neg at hcond
    rcases hm : (walkStep (visitFn (chainCtx c)) (chainParsed c) Option.none v
        { complete := true, missingFields := [], nodeIds := Option.none }).missingFields with
      _ | ⟨m, ms⟩
    · exact absurd hm hcond.2
    · have hmem : m ∈ chainSels c := by
        have h0 : m ∈ (walkStep (visitFn (chainCtx c)) (chainParsed c) Option.none v
            { complete := true, missingFields := [], nodeIds := Option.none }).missingFields := by
          rw [hm]; exact List.mem_cons_self _ _
        rcases walkStep_missing_sub (chainCtx c) (chainParsed c) Option.none v
            { complete := true, missingFields := [], nodeIds := Option.none } m h0 with
          h1 | h1 | h1
        · simp at h1
        · rwa [selsOfPQ_chainParsed] at h1
        · simp at h1
      have hfull := (findMissing_chain (chainRaw c).variableValues
        (fragmentMapForDocument (chainRaw c).document) c (m :: ms)).1
        ⟨m, hmem, List.mem_cons_self _ _⟩
      simp only [hm]
      rw [partitionQuery]
      rw [show getMainDefinition (chainRaw c).document
        = Option.some (.operation (chainSelectionSet c)) from rfl]
      dsimp only [Definition.selectionSet, Definition.withSelectionSet]
      rw [hfull]
      rfl

/-- C2 (amended): for chain queries — one plain field per level — partition
extension is complete: whenever a fresh read of the chain against any stored
root value yields a partitioned query, re-running the same read against the
snapshot extended to contain exactly the data that partitioned query requests
yields `complete = true`.  (The unamended claim, quantified over every query,
fails: the field loop breaks at the first absent sibling, so a later missing
sibling is absent from the partitioned query and the re-read stays
incomplete — see the counterexample.) -/
theorem chain_partition_extension_complete (c : List String) (old : JsonValue)
    (doc : DocumentNode)
    (h : (read (chainCtx c) (chainRaw c) (chainSnap old) false).1.partitionedQuery
      = Option.some doc) :
    (read (chainCtx c) (chainRaw c) (chainSnap (extendByDoc old doc)) false).1.complete
      = Option.some true := by
  have hdoc : doc = chainDoc c := by
    have hfull := chain_partition_full c old
    rw [h] at hfull
    exact Option.some.inj hfull
  subst hdoc
  have hext : extendByDoc old (chainDoc c) = extendValue old (chainSelectionSet c) := rfl
  rw [read_chain_complete, hext, chainOK_extend c old]

/-- Witness for the amended C2 theorem at a concrete input: the chain
`{ foo { bar } }` read against an empty-object root. -/
theorem chain_partition_extension_complete_witness :
    (read (chainCtx ["foo", "bar"]) (chainRaw ["foo", "bar"])
        (chainSnap (.obj .nil)) false).1.partitionedQuery
      = Option.some (chainDoc ["foo", "bar"]) ∧
    (read (chainCtx ["foo", "bar"]) (chainRaw ["foo", "bar"])
        (chainSnap (extendByDoc (.obj .nil) (chainDoc ["foo", "bar"]))) false).1.complete
      = Option.some true :=
  ⟨chain_partition_full ["foo", "bar"] (.obj .nil),
    chain_partition_extension_complete ["foo", "bar"] (.obj .nil)
      (chainDoc ["foo", "bar"])
      (chain_partition_full ["foo", "bar"] (.obj .nil))⟩

/-- C2 counterexample: reading `{ a b }` against a snapshot whose root data is
the empty object records only the `a` selection as missing (the field loop
breaks at the first absent sibling), so the partitioned query is `{ a }`;
extending the snapshot with exactly the data `{ a }` requests and re-running
the same read still yields `complete = false` — the claim's universal
partition-extension property fails. -/
theorem extending_by_partition_stays_incomplete :
    (read ctxAB rawAB snapAB false).1.partitionedQuery = Option.some docA ∧
      extendByDoc (.obj .nil) docA = .obj (.cons "a" (.bool true) .nil) ∧
      (read ctxAB rawAB snapABext false).1.complete = Option.some false := by
  have hvisit1 : _visitSelection opAB ctxAB (.obj .nil) Option.none =
      { complete := false, missingFields := [selA2], nodeIds := Option.none } := by
    simp [_visitSelection, walkOperation, walkStep, walkArray, walkChildren, visitFn,
      visitMissingFieldsLoop, collectFields, utilGet, jsHasProp, isObject,
      JsonObject.lookupProp, JsonObject.hasProp, addNodeId, opAB, parsedAB, ctxAB,
      selA2, selB2, ParsedQueryNode.selection, ParsedQueryNode.children]
  have hfp1 : readFirstPass ctxAB opAB snapAB false {} =
      ({ result := .obj .nil, complete := Option.some false, entityIds := Option.none,
          dynamicNodeIds := Option.none, partitionedQuery := Option.none },
        [selA2], false) := by
    rw [readFirstPass]
    rw [show jsTruthy (QueryResult.mk .undefined Option.none Option.none Option.none
      Option.none).result = false from rfl]
    rw [show snapAB.getNodeData opAB.rootId = JsonValue.obj .nil from by decide]
    simp only [show opAB.isStatic = true from rfl, Bool.not_true, Bool.not_false,
      Bool.false_eq_true, if_false, if_true, hvisit1]
  have hsp1 : readSecondPass ctxAB opAB false
      ({ result := .obj .nil, complete := Option.some false, entityIds := Option.none,
          dynamicNodeIds := Option.none, partitionedQuery := Option.none },
        [selA2], false) =
      ({ result := .obj .nil, complete := Option.some false, entityIds := Option.none,
          dynamicNodeIds := Option.none, partitionedQuery := Option.none },
        [selA2], false) := by
    rw [readSecondPass]
    simp
  have hpart1 : readPartition rawAB
      { result := .obj .nil, complete := Option.some false, entityIds := Option.none,
        dynamicNodeIds := Option.none, partitionedQuery := Option.none }
      [selA2] =
      { result := .obj .nil, complete := Option.some false, entityIds := Option.none,
        dynamicNodeIds := Option.none, partitionedQuery := Option.some docA } := by
    rw [readPartition]
    rw [show jsTruthy (JsonValue.obj .nil) = true from by decide]
    simp only [Bool.not_true, Bool.false_eq_true, false_or]
    rw [if_neg (by simp : ¬ (([selA2] : List SelectionNode) = []))]
    rw [show (partitionQuery [selA2] rawAB).map (·.document) = Option.some docA from by
      decide]
  have hread1 : (read ctxAB rawAB snapAB false).1 =
      { result := .obj .nil, complete := Option.some false, entityIds := Option.none,
        dynamicNodeIds := Option.none, partitionedQuery := Option.some docA } := by
    rw [read]
    rw [show ctxAB.parseOperation rawAB = opAB from rfl]
    rw [show (cacheLookup snapAB.readCache opAB).getD {} = {} from rfl]
    rw [hfp1, hsp1, hpart1]
  have hext : extendByDoc (.obj .nil) docA = .obj (.cons "a" (.bool true) .nil) := by
    simp [extendByDoc, getMainDefinition, docA, Definition.selectionSet, extendValue,
      extendFields, JsonObject.hasProp, selA2]
  have hvisit2 : _visitSelection opAB ctxAB (.obj (.cons "a" (.bool true) .nil))
      Option.none =
      { complete := false, missingFields := [selB2], nodeIds := Option.none } := by
    simp [_visitSelection, walkOperation, walkStep, walkArray, walkChildren, visitFn,
      visitMissingFieldsLoop, collectFields, utilGet, jsHasProp, isObject,
      JsonObject.lookupProp, JsonObject.hasProp, addNodeId, opAB, parsedAB, ctxAB,
      selA2, selB2, ParsedQueryNode.selection, ParsedQueryNode.children]
  have hfp2 : readFirstPass ctxAB opAB snapABext false {} =
      ({ result := .obj (.cons "a" (.bool true) .nil), complete := Option.some false,
          entityIds := Option.none, dynamicNodeIds := Option.none,
          partitionedQuery := Option.none },
        [selB2], false) := by
    rw [readFirstPass]
    rw [show jsTruthy (QueryResult.mk .undefined Option.none Option.none Option.none
      Option.none).result = false from rfl]
    rw [show snapABext.getNodeData opAB.rootId = extendByDoc (.obj .nil) docA from rfl,
      hext]
    simp only [show opAB.isStatic = true from rfl, Bool.not_true, Bool.not_false,
      Bool.false_eq_true, if_false, if_true, hvisit2]
  have hsp2 : readSecondPass ctxAB opAB false
      ({ result := .obj (.cons "a" (.bool true) .nil), complete := Option.some false,
          entityIds := Option.none, dynamicNodeIds := Option.none,
          partitionedQuery := Option.none },
        [selB2], false) =
      ({ result := .obj (.cons "a" (.bool true) .nil), complete := Option.some false,
          entityIds := Option.none, dynamicNodeIds := Option.none,
          partitionedQuery := Option.none },
        [selB2], false) := by
    rw [readSecondPass]
    simp
  have hread2 : (read ctxAB rawAB snapABext false).1.complete = Option.some false := by
    rw [read]
    rw [show ctxAB.parseOperation rawAB = opAB from rfl]
    rw [show (cacheLookup snapABext.readCache opAB).getD {} = {} from rfl]
    rw [hfp2, hsp2]
    rw [(readPartition_preserves rawAB _ _).1]
  exact ⟨by rw [hread1], hext, hread2⟩

end Hermes
